import Mathlib

/-!
Verification of the typeorm-seeding core: a shallow embedding of the
descriptor model, the seven-phase `SchemaResolver.resolve` pipeline
(src/resolver/SchemaResolver.ts) and the `SeedingContext`
(src/SeedingContext.ts).

Modelling conventions:
* JavaScript objects used as field mappings are association lists
  `List (String × Value)` with spread/assignment semantics (`setField`
  replaces in place, else appends), mirroring JS key ordering.
* Entities are heap allocated (`World.entHeap`); a `Value.ent id` is an
  object reference, so reference identity is id equality.
* The shared mutable structures of a `SeedingContext` (factory cache,
  sequence counters, ref store, creation log, user store) live in heaps of
  cells; a context holds cell indices.  `withTransaction` copies the cell
  indices — by-reference sharing is cell-index equality.
* Thrown JS errors are modelled by `ResM`, a state monad returning
  `Except Err α × St`: an error aborts the computation but the state at
  the throw point survives, exactly as in JS.
* Fuel bounds the recursion of `resolve` (mutually related blueprints can
  genuinely diverge without the cycle-breaking override injection);
  running out of fuel is the distinguished error `Err.outOfFuel`.
-/

mutual

/-- Runtime values of the embedding: JS primitives, entity references,
plain objects, arrays, and descriptor objects (tagged via the dedicated
`desc` constructor, mirroring the unforgeable `DESCRIPTOR_TAG` symbol). -/
inductive Value where
  | null : Value
  | int (n : Int) : Value
  | str (s : String) : Value
  | ent (id : Nat) : Value
  | obj (fs : List (String × Value)) : Value
  | list (vs : List Value) : Value
  | desc (d : Descriptor) : Value

/-- Descriptors from src/descriptors/types.ts: tagged deferred field
computations.  `factoryRef` is the registry index of a factory class. -/
inductive Descriptor where
  | sequence (callback : Nat → Value) : Descriptor
  | ref (label : String) : Descriptor
  | belongsTo (factoryRef : Nat) (overridesOrEntity : Option (List (String × Value)))
      (variants : Option (List String)) : Descriptor
  | hasMany (factoryRef : Nat) (count : Nat) (overrides : Option (List (String × Value)))
      (variants : Option (List String)) : Descriptor
  | hasOne (factoryRef : Nat) (overrides : Option (List (String × Value)))
      (variants : Option (List String)) : Descriptor

end

/-- A JS object used as a field mapping: association list in key order. -/
abbrev Fields := List (String × Value)

/-- `isDescriptor` from src/descriptors/types.ts: the `DESCRIPTOR_TAG`
check.  Only genuine descriptor objects carry the unforgeable tag, so in
the model only `Value.desc` satisfies it. -/
def isDescriptor : Value → Bool
  | Value.desc _ => true
  | _ => false

/-- Property lookup on a JS object (first binding wins; keys are unique
by construction of all mappings the engine builds). -/
def lookupField : Fields → String → Option Value
  | [], _ => none
  | (k, v) :: rest, key => if k = key then some v else lookupField rest key

/-- JS property assignment `o[k] = v`: replaces the value in place if the
key exists (keeping its position), else appends the key at the end. -/
def setField : Fields → String → Value → Fields
  | [], key, v => [(key, v)]
  | (k, w) :: rest, key, v =>
    if k = key then (k, v) :: rest else (k, w) :: setField rest key v

/-- JS `delete o[k]`. -/
def removeField : Fields → String → Fields
  | [], _ => []
  | (k, w) :: rest, key => if k = key then rest else (k, w) :: removeField rest key

/-- JS object spread `{ ...a, ...b }`: assign every binding of `b` onto a
copy of `a`, in order. -/
def mergeFields (a b : Fields) : Fields :=
  b.foldl (fun acc kv => setField acc kv.1 kv.2) a

/-- JS `x == null` on an optional property value (absent ⇒ undefined). -/
def isNullish : Option Value → Bool
  | none => true
  | some Value.null => true
  | some _ => false

/-- One join column of a relation, from TypeORM metadata:
`{ propertyName, referencedColumn?.propertyName }`. -/
structure JoinCol where
  propertyName : String
  referencedPk : Option String

/-- Relation metadata as consumed by the resolver:
`findRelationWithPropertyPath` result. -/
structure RelationMeta where
  joinColumns : List JoinCol
  inverseSidePropertyPath : Option String

/-- Entity metadata as consumed by the resolver. -/
structure EntityMeta where
  primaryColumns : List String
  relations : List (String × RelationMeta)

/-- A blueprint (source term: factory class): target model, class name
(for error messages), the result of `define(faker)`, and the variant
table returned by `variants(faker)`. The faker is opaque, so the two
callback results are captured as the mappings they produce. -/
structure Blueprint where
  model : Nat
  name : String
  define : Fields
  variants : List (String × Fields)

/-- Static configuration: the factory registry (index = factory class)
and the data source's metadata lookup (`none` models
`EntityMetadataNotFoundError`, the soft miss). -/
structure Config where
  blueprint : Nat → Blueprint
  meta : Nat → Option EntityMeta

/-- Lookup in an association list keyed by `Nat`. -/
def lookupNat {α : Type} : List (Nat × α) → Nat → Option α
  | [], _ => none
  | (k, v) :: rest, key => if k = key then some v else lookupNat rest key

/-- Map.set on an association list keyed by `Nat`. -/
def setNat {α : Type} : List (Nat × α) → Nat → α → List (Nat × α)
  | [], key, v => [(key, v)]
  | (k, w) :: rest, key, v =>
    if k = key then (k, v) :: rest else (k, w) :: setNat rest key v

/-- Lookup in an association list keyed by `String`. -/
def lookupStr {α : Type} : List (String × α) → String → Option α
  | [], _ => none
  | (k, v) :: rest, key => if k = key then some v else lookupStr rest key

/-- `metadata.findRelationWithPropertyPath`. -/
def findRelation (md : EntityMeta) (prop : String) : Option RelationMeta :=
  lookupStr md.relations prop

/-- A factory instance: its class (registry index) and the mutable
`_activeVariants` list (non-empty only on clones made by `variant()`). -/
structure FacInst where
  facId : Nat
  activeVariants : List String
deriving DecidableEq

/-- `Factory.variant(...names)`: shallow clone with the variant list
extended; the original is never mutated. -/
def variantClone (fac : FacInst) (names : List String) : FacInst :=
  { facId := fac.facId, activeVariants := fac.activeVariants ++ names }

/-- A `SeedingContext` object.  The five shared mutable structures are
held by reference: the context stores cell indices into the world's
heaps.  `tempIdCounter` is a plain scalar field of the object
(`private _tempIdCounter`), so it is per-context state. -/
structure Ctx where
  dsId : Nat
  cacheCell : Nat
  seqCell : Nat
  refCell : Nat
  logCell : Nat
  storeCell : Nat
  tempIdCounter : Int
  em : Nat
deriving DecidableEq

/-- The mutable world: one heap per kind of shared cell, the entity heap,
and observation traces of the externally visible effects (constructions,
`em.save`, `em.remove`, temp-id handouts). -/
structure World where
  cacheHeap : List (List (Nat × FacInst))
  seqHeap : List (List (Nat × Nat))
  refHeap : List (List (String × Value))
  logHeap : List (List (Nat × Nat))
  storeHeap : List (List (String × Value))
  entHeap : List Fields
  createdTrace : List (Nat × Nat)
  saveTrace : List (Nat × Nat)
  removeTrace : List (Nat × Nat)
  tempIdTrace : List Int
  dbCounter : Nat

/-- Read a heap cell (out-of-range reads never occur on reachable
states; they default to the empty cell). -/
def cellGet {α : Type} (heap : List α) (i : Nat) (dflt : α) : α :=
  (heap.get? i).getD dflt

/-- Write a heap cell. -/
def cellSet {α : Type} (heap : List α) (i : Nat) (v : α) : List α :=
  heap.set i v

/-- Errors thrown by the engine.  Each `throw new Error(message)` site is
modelled structurally by the data the message is built from;
`renderErr` produces the exact message template of the source. -/
inductive Err where
  | unknownVariant (factoryName : String) (badName : String) (validNames : List String)
  | refNotRegistered (label : String)
  | refAlreadyRegistered (label : String)
  | removeFailed (entId : Nat)
  | outOfFuel
deriving DecidableEq

/-- `Array.prototype.join(', ')`. -/
def joinComma : List String → String
  | [] => ""
  | [x] => x
  | x :: rest => x ++ ", " ++ joinComma rest

/-- The human-readable messages, built exactly as in the source
(including the `join(', ') || '(none)'` fallback of the variant error). -/
def renderErr : Err → String
  | Err.unknownVariant factoryName badName validNames =>
    "Unknown variant \"" ++ badName ++ "\" on " ++ factoryName ++ ". Available variants: " ++
      (if joinComma validNames = "" then "(none)" else joinComma validNames)
  | Err.refNotRegistered label =>
    "Ref label \"" ++ label ++ "\" is not registered. Make sure to call .as(\"" ++ label ++
      "\") before referencing it."
  | Err.refAlreadyRegistered label =>
    "Ref label \"" ++ label ++ "\" is already registered. Use ctx.clearRefs() to reset labels."
  | Err.removeFailed entId => "remove failed for entity " ++ toString entId
  | Err.outOfFuel => "out of fuel"

/-- Phase 2 of `SchemaResolver.resolve`: merge each active variant, in
order, failing fast on the first name absent from the variant table with
an error carrying the factory class name, the bad name, and the list of
valid names. -/
def mergeVariants (bp : Blueprint) : List String → Fields → Except Err Fields
  | [], schema => Except.ok schema
  | name :: rest, schema =>
    match lookupStr bp.variants name with
    | none => Except.error (Err.unknownVariant bp.name name (bp.variants.map Prod.fst))
    | some variantData => mergeVariants bp rest (mergeFields schema variantData)

/-- `_hasNonNullPrimaryKey`: an object counts as an existing entity when
the model's metadata is available, it has at least one primary column,
and every primary-key property is present and non-null on the object.
A metadata miss degrades to `false` (treat as overrides). -/
def hasNonNullPrimaryKey (cfg : Config) (modelId : Nat) (o : Fields) : Bool :=
  match cfg.meta modelId with
  | none => false
  | some md =>
    if md.primaryColumns.isEmpty then false
    else md.primaryColumns.all (fun col => !(isNullish (lookupField o col)))

/-- `_getPrimaryKeyPropertyNames`: metadata miss degrades to `[]`. -/
def primaryKeyPropertyNames (cfg : Config) (modelId : Nat) : List String :=
  match cfg.meta modelId with
  | some md => md.primaryColumns
  | none => []

/-- `_getInverseRelationName`: metadata or relation miss degrades to
`none`. -/
def getInverseRelationName (cfg : Config) (modelId : Nat) (prop : String) : Option String :=
  match cfg.meta modelId with
  | none => none
  | some md =>
    match findRelation md prop with
    | none => none
    | some rel => rel.inverseSidePropertyPath

/-- The `inverseRelation ? { [inverseRelation]: entity } : {}` injection
of phase 7c, with JS truthiness (an empty-string property path is falsy). -/
def inverseInjection (inv : Option String) (entId : Nat) : Fields :=
  match inv with
  | some i => if i = "" then [] else [(i, Value.ent entId)]
  | none => []

/-- `descriptor.variants?.length` guard followed by `variant(...)`. -/
def applyVariants (fac : FacInst) : Option (List String) → FacInst
  | some vs => if vs.isEmpty then fac else variantClone fac vs
  | none => fac

/-- The full mutable state: the context object in use plus the world. -/
structure St where
  ctx : Ctx
  w : World

/-- The effect monad of the embedding: state plus JS exceptions.  The
state at the throw point survives an error, as in JavaScript — a thrown
error does not roll anything back. -/
def ResM (α : Type) : Type := St → Except Err α × St

/-- Monadic return. -/
def rpure {α : Type} (a : α) : ResM α := fun s => (Except.ok a, s)

/-- Monadic bind: short-circuits on error, keeping the error state. -/
def rbind {α β : Type} (m : ResM α) (f : α → ResM β) : ResM β := fun s =>
  match m s with
  | (Except.ok a, s') => f a s'
  | (Except.error e, s') => (Except.error e, s')

/-- `throw new Error(e)`. -/
def rthrow {α : Type} (e : Err) : ResM α := fun s => (Except.error e, s)

/-- Hoist a pure `Except` computation. -/
def rlift {α : Type} : Except Err α → ResM α
  | Except.ok a => rpure a
  | Except.error e => rthrow e

/-- `SeedingContext.getFactory`: cache-or-construct the singleton factory
instance for a class.  A freshly constructed instance has an empty
active-variant list; the cached singleton is returned as stored. -/
def getFactoryM (facId : Nat) : ResM FacInst := fun s =>
  let cache := cellGet s.w.cacheHeap s.ctx.cacheCell []
  match lookupNat cache facId with
  | some fac => (Except.ok fac, s)
  | none =>
    let fac : FacInst := { facId := facId, activeVariants := [] }
    (Except.ok fac,
      { s with w := { s.w with
          cacheHeap := cellSet s.w.cacheHeap s.ctx.cacheCell (setNat cache facId fac) } })

/-- `SeedingContext.nextSequence`: per-factory-class counter, unset
treated as 0, incremented then returned. -/
def nextSequenceM (facId : Nat) : ResM Nat := fun s =>
  let counters := cellGet s.w.seqHeap s.ctx.seqCell []
  let current := (lookupNat counters facId).getD 0
  let next := current + 1
  (Except.ok next,
    { s with w := { s.w with
        seqHeap := cellSet s.w.seqHeap s.ctx.seqCell (setNat counters facId next) } })

/-- `SeedingContext.nextTempId`: return the counter, then decrement it.
The handed-out id is also recorded on the observation trace. -/
def nextTempIdM : ResM Int := fun s =>
  let id := s.ctx.tempIdCounter
  (Except.ok id,
    { s with
        ctx := { s.ctx with tempIdCounter := s.ctx.tempIdCounter - 1 },
        w := { s.w with tempIdTrace := s.w.tempIdTrace ++ [id] } })

/-- `SeedingContext.ref`: throws when the label was never registered. -/
def getRefM (label : String) : ResM Value := fun s =>
  let store := cellGet s.w.refHeap s.ctx.refCell []
  match lookupStr store label with
  | some v => (Except.ok v, s)
  | none => (Except.error (Err.refNotRegistered label), s)

/-- `SeedingContext.setRef`: write-once; throws on a duplicate label. -/
def setRefM (label : String) (v : Value) : ResM Unit := fun s =>
  let store := cellGet s.w.refHeap s.ctx.refCell []
  match lookupStr store label with
  | some _ => (Except.error (Err.refAlreadyRegistered label), s)
  | none =>
    (Except.ok (),
      { s with w := { s.w with
          refHeap := cellSet s.w.refHeap s.ctx.refCell (store ++ [(label, v)]) } })

/-- `SeedingContext.logCreation`: append to the creation log cell. -/
def logCreationM (modelId entId : Nat) : ResM Unit := fun s =>
  let log := cellGet s.w.logHeap s.ctx.logCell []
  (Except.ok (),
    { s with w := { s.w with
        logHeap := cellSet s.w.logHeap s.ctx.logCell (log ++ [(modelId, entId)]) } })

/-- `new model()`: allocate a fresh entity object with no own properties,
recording the construction on the observation trace. -/
def allocEntityM (modelId : Nat) : ResM Nat := fun s =>
  let entId := s.w.entHeap.length
  (Except.ok entId,
    { s with w := { s.w with
        entHeap := s.w.entHeap ++ [[]],
        createdTrace := s.w.createdTrace ++ [(modelId, entId)] } })

/-- Read one property of a heap entity (`none` = property absent). -/
def getEntityFieldM (entId : Nat) (key : String) : ResM (Option Value) := fun s =>
  (Except.ok (lookupField (cellGet s.w.entHeap entId []) key), s)

/-- Assign one property of a heap entity. -/
def setEntityFieldM (entId : Nat) (key : String) (v : Value) : ResM Unit := fun s =>
  let fs := cellGet s.w.entHeap entId []
  (Except.ok (), { s with w := { s.w with entHeap := cellSet s.w.entHeap entId (setField fs key v) } })

/-- `Object.assign(entity, schema)`: copy the mapping onto the entity in
key order. -/
def assignSchemaM (entId : Nat) (schema : Fields) : ResM Unit := fun s =>
  let fs := cellGet s.w.entHeap entId []
  (Except.ok (),
    { s with w := { s.w with
        entHeap := cellSet s.w.entHeap entId (mergeFields fs schema) } })

/-- JS property read `v[name]` on a resolved parent value: heap entities
and plain objects have properties, everything else yields undefined
(collapsed to `null` — the engine only compares these with `== null`). -/
def getPropM (v : Value) (name : String) : ResM Value := fun s =>
  (Except.ok
    (match v with
     | Value.ent id => (lookupField (cellGet s.w.entHeap id []) name).getD Value.null
     | Value.obj fs => (lookupField fs name).getD Value.null
     | _ => Value.null), s)

/-- `em.save(entity)` as the external collaborator behaves on success:
database-assigns every primary-key column that is still null (fresh
positive ids) and records the save on the trace, bound to the calling
context's entity-manager handle. -/
def emSaveM (cfg : Config) (modelId entId : Nat) : ResM Unit := fun s =>
  let pks := match cfg.meta modelId with
    | some md => md.primaryColumns
    | none => []
  let fs := cellGet s.w.entHeap entId []
  let assignStep := fun (acc : Fields × Nat) (col : String) =>
    if isNullish (lookupField acc.1 col) then
      (setField acc.1 col (Value.int (Int.ofNat (acc.2 + 1))), acc.2 + 1)
    else acc
  let assigned := pks.foldl assignStep (fs, s.w.dbCounter)
  (Except.ok (),
    { s with w := { s.w with
        entHeap := cellSet s.w.entHeap entId assigned.1,
        dbCounter := assigned.2,
        saveTrace := s.w.saveTrace ++ [(s.ctx.em, entId)] } })

/-- A deferred belongsTo entry: field key plus the descriptor payload. -/
abbrev BTEntry := String × Nat × Option Fields × Option (List String)

/-- A deferred hasMany entry: field key, factory, count, overrides,
variants. -/
abbrev HMEntry := String × Nat × Nat × Option Fields × Option (List String)

/-- A deferred hasOne entry. -/
abbrev HOEntry := String × Nat × Option Fields × Option (List String)

/-- Phase 4 of `SchemaResolver.resolve`, iterating a snapshot of
`Object.entries(schema)` while updating the running mapping: sequence
and ref descriptors are resolved in place; relationship descriptors are
removed from the mapping and queued (in field order) for phases 5 and 7. -/
def phase4 (facId : Nat) : List (String × Value) → Fields → List BTEntry → List HMEntry →
    List HOEntry → ResM (Fields × List BTEntry × List HMEntry × List HOEntry)
  | [], schema, bt, hm, ho => rpure (schema, bt, hm, ho)
  | (key, v) :: rest, schema, bt, hm, ho =>
    match v with
    | Value.desc (Descriptor.sequence f) =>
      rbind (nextSequenceM facId) fun n =>
        phase4 facId rest (setField schema key (f n)) bt hm ho
    | Value.desc (Descriptor.ref label) =>
      rbind (getRefM label) fun rv =>
        phase4 facId rest (setField schema key rv) bt hm ho
    | Value.desc (Descriptor.belongsTo fr ov vs) =>
      phase4 facId rest (removeField schema key) (bt ++ [(key, fr, ov, vs)]) hm ho
    | Value.desc (Descriptor.hasMany fr c ov vs) =>
      phase4 facId rest (removeField schema key) bt (hm ++ [(key, fr, c, ov, vs)]) ho
    | Value.desc (Descriptor.hasOne fr ov vs) =>
      phase4 facId rest (removeField schema key) bt hm (ho ++ [(key, fr, ov, vs)])
    | _ => phase4 facId rest schema bt hm ho

/-- The join-column loop of `_setForeignKey`: set each foreign-key
scalar to the parent's referenced primary-key value, skipping join
columns without a property name or whose property collides with the
relation field itself. -/
def setFkLoop (relProp : String) (parent : Value) : List JoinCol → Fields → ResM Fields
  | [], schema => rpure schema
  | jc :: rest, schema =>
    match jc.referencedPk with
    | some pkName =>
      if jc.propertyName ≠ "" ∧ jc.propertyName ≠ relProp then
        rbind (getPropM parent pkName) fun pv =>
          setFkLoop relProp parent rest (setField schema jc.propertyName pv)
      else setFkLoop relProp parent rest schema
    | none => setFkLoop relProp parent rest schema

/-- `_setForeignKey`: metadata or relation miss degrades to a no-op. -/
def setForeignKeyM (cfg : Config) (modelId : Nat) (schema : Fields) (relProp : String)
    (parent : Value) : ResM Fields :=
  match cfg.meta modelId with
  | none => rpure schema
  | some md =>
    match findRelation md relProp with
    | none => rpure schema
    | some rel => setFkLoop relProp parent rel.joinColumns schema

/-- Phase 5 of `SchemaResolver.resolve`: for each deferred belongsTo, get
the related factory (with descriptor variants applied), disambiguate the
optional second argument (existing entity vs creation overrides), set the
relation field to the parent, and infer foreign-key scalars.  `recur` is
the recursive single-entity resolution at the current persist flag. -/
def phase5Loop (cfg : Config) (recur : FacInst → Option Fields → ResM Nat) (modelId : Nat) :
    List BTEntry → Fields → ResM Fields
  | [], schema => rpure schema
  | (key, fr, ovOrEnt, vs) :: rest, schema =>
    rbind (getFactoryM fr) fun pf0 =>
    let pf := applyVariants pf0 vs
    rbind
      (match ovOrEnt with
       | some o =>
         if hasNonNullPrimaryKey cfg (cfg.blueprint fr).model o then rpure (Value.obj o)
         else rbind (recur pf (some o)) fun pid => rpure (Value.ent pid)
       | none => rbind (recur pf none) fun pid => rpure (Value.ent pid)) fun parent =>
    rbind (setForeignKeyM cfg modelId (setField schema key parent) key parent) fun schema' =>
    phase5Loop cfg recur modelId rest schema'

/-- The non-persist tail of phase 6: assign the next temporary id to
every primary-key column that is still null after construction (one
independent decrement per column). -/
def assignTempIdsLoop (entId : Nat) : List String → ResM Unit
  | [] => rpure ()
  | col :: rest =>
    rbind (getEntityFieldM entId col) fun v =>
    if isNullish v then
      rbind nextTempIdM fun t =>
      rbind (setEntityFieldM entId col (Value.int t)) fun _ =>
      assignTempIdsLoop entId rest
    else assignTempIdsLoop entId rest

/-- Snapshot the belongs-to relation fields before `em.save` (which may
strip relation object references). -/
def snapshotRelations (entId : Nat) : List BTEntry → ResM (List (String × Option Value))
  | [] => rpure []
  | (key, _, _, _) :: rest =>
    rbind (getEntityFieldM entId key) fun v =>
    rbind (snapshotRelations entId rest) fun others => rpure ((key, v) :: others)

/-- Restore the snapshotted relation object references after `em.save`. -/
def restoreRelations (entId : Nat) : List (String × Option Value) → ResM Unit
  | [] => rpure ()
  | (key, v) :: rest =>
    rbind (setEntityFieldM entId key (v.getD Value.null)) fun _ => restoreRelations entId rest

/-- The persist branch of phase 6: snapshot relations, save through the
context's active entity manager, restore relations, log the creation. -/
def persistEntityM (cfg : Config) (modelId : Nat) (btL : List BTEntry) (entId : Nat) :
    ResM Unit :=
  rbind (snapshotRelations entId btL) fun snap =>
  rbind (emSaveM cfg modelId entId) fun _ =>
  rbind (restoreRelations entId snap) fun _ =>
  logCreationM modelId entId

/-- `count` recursive child resolutions with the same merged overrides
(the cooperative scheduler resolves the `Promise.all` batch in program
order). -/
def resolveChildren (recur : FacInst → Option Fields → ResM Nat) (childFac : FacInst)
    (ov : Fields) : Nat → ResM (List Nat)
  | 0 => rpure []
  | n + 1 =>
    rbind (recur childFac (some ov)) fun c =>
    rbind (resolveChildren recur childFac ov n) fun cs => rpure (c :: cs)

/-- Phase 7, hasMany: create `count` children with the parent entity
injected as the child's inverse-relation override (overridable by the
descriptor's own overrides), then assign the array to the field. -/
def phase7HMLoop (cfg : Config) (recur : FacInst → Option Fields → ResM Nat)
    (modelId entId : Nat) : List HMEntry → ResM Unit
  | [] => rpure ()
  | (key, fr, count, ov, vs) :: rest =>
    rbind (getFactoryM fr) fun cf0 =>
    let cf := applyVariants cf0 vs
    let inv := getInverseRelationName cfg modelId key
    let childOv := mergeFields (inverseInjection inv entId) (ov.getD [])
    rbind (resolveChildren recur cf childOv count) fun children =>
    rbind (setEntityFieldM entId key (Value.list (children.map Value.ent))) fun _ =>
    phase7HMLoop cfg recur modelId entId rest

/-- Phase 7, hasOne: like hasMany with a single child assigned directly. -/
def phase7HOLoop (cfg : Config) (recur : FacInst → Option Fields → ResM Nat)
    (modelId entId : Nat) : List HOEntry → ResM Unit
  | [] => rpure ()
  | (key, fr, ov, vs) :: rest =>
    rbind (getFactoryM fr) fun cf0 =>
    let cf := applyVariants cf0 vs
    let inv := getInverseRelationName cfg modelId key
    let childOv := mergeFields (inverseInjection inv entId) (ov.getD [])
    rbind (recur cf (some childOv)) fun child =>
    rbind (setEntityFieldM entId key (Value.ent child)) fun _ =>
    phase7HOLoop cfg recur modelId entId rest

/-- `SchemaResolver.resolve`: the seven-phase pipeline, bounded by fuel
(each nested single-entity resolution consumes one unit). -/
def resolve (cfg : Config) : Nat → FacInst → Option Fields → Bool → ResM Nat
  | 0, _, _, _ => rthrow Err.outOfFuel
  | Nat.succ fuel, fac, overrides, persist =>
    let bp := cfg.blueprint fac.facId
    rbind (rlift (mergeVariants bp fac.activeVariants bp.define)) fun schema1 =>
    let schema2 := match overrides with
      | none => schema1
      | some ov => mergeFields schema1 ov
    rbind (phase4 fac.facId schema2 schema2 [] [] []) fun res =>
    match res with
    | (schema3, btL, hmL, hoL) =>
      rbind (phase5Loop cfg (fun f o => resolve cfg fuel f o persist) bp.model btL schema3)
        fun schema4 =>
      rbind (allocEntityM bp.model) fun entId =>
      rbind (assignSchemaM entId schema4) fun _ =>
      rbind (if persist then persistEntityM cfg bp.model btL entId
             else assignTempIdsLoop entId (primaryKeyPropertyNames cfg bp.model)) fun _ =>
      rbind (phase7HMLoop cfg (fun f o => resolve cfg fuel f o persist) bp.model entId hmL)
        fun _ =>
      rbind (phase7HOLoop cfg (fun f o => resolve cfg fuel f o persist) bp.model entId hoL)
        fun _ =>
      rpure entId

/-- `factory.buildOne(overrides)` reached through
`ctx.getFactory(FactoryClass)`. -/
def buildOne (cfg : Config) (fuel facId : Nat) (ov : Option Fields) : ResM Nat :=
  rbind (getFactoryM facId) fun fac => resolve cfg fuel fac ov false

/-- `factory.persistOne(overrides)` reached through
`ctx.getFactory(FactoryClass)`. -/
def persistOne (cfg : Config) (fuel facId : Nat) (ov : Option Fields) : ResM Nat :=
  rbind (getFactoryM facId) fun fac => resolve cfg fuel fac ov true

/-- `.as(label)` on a single-entity build/persist result. -/
def asLabelM (m : ResM Nat) (label : String) : ResM Nat :=
  rbind m fun entId => rbind (setRefM label (Value.ent entId)) fun _ => rpure entId

/-- Options of the `SeedingContext` constructor: each shared structure
may be supplied (by reference — a cell index) or omitted (a fresh one is
allocated). -/
structure CtxOptions where
  factoryCache : Option Nat := none
  sequenceCounters : Option Nat := none
  refStore : Option Nat := none
  creationLog : Option Nat := none
  store : Option Nat := none
  entityManager : Option Nat := none

/-- The `SeedingContext` constructor.  Every omitted option allocates a
fresh empty cell; `_tempIdCounter` is unconditionally initialised to -1;
the entity manager defaults to `dataSource.manager` (modelled as the
handle `defaultEm`). -/
def mkContext (dsId : Nat) (defaultEm : Nat) (opts : CtxOptions) (w : World) : Ctx × World :=
  let cacheCell := (opts.factoryCache).getD w.cacheHeap.length
  let cacheHeap := match opts.factoryCache with
    | some _ => w.cacheHeap
    | none => w.cacheHeap ++ [[]]
  let seqCell := (opts.sequenceCounters).getD w.seqHeap.length
  let seqHeap := match opts.sequenceCounters with
    | some _ => w.seqHeap
    | none => w.seqHeap ++ [[]]
  let refCell := (opts.refStore).getD w.refHeap.length
  let refHeap := match opts.refStore with
    | some _ => w.refHeap
    | none => w.refHeap ++ [[]]
  let logCell := (opts.creationLog).getD w.logHeap.length
  let logHeap := match opts.creationLog with
    | some _ => w.logHeap
    | none => w.logHeap ++ [[]]
  let storeCell := (opts.store).getD w.storeHeap.length
  let storeHeap := match opts.store with
    | some _ => w.storeHeap
    | none => w.storeHeap ++ [[]]
  (⟨dsId, cacheCell, seqCell, refCell, logCell, storeCell, -1,
      (opts.entityManager).getD defaultEm⟩,
   { w with cacheHeap := cacheHeap, seqHeap := seqHeap, refHeap := refHeap,
            logHeap := logHeap, storeHeap := storeHeap })

/-- `createSeedingContext(dataSource)`: the constructor with no options. -/
def createSeedingContext (dsId defaultEm : Nat) (w : World) : Ctx × World :=
  mkContext dsId defaultEm {} w

/-- `SeedingContext.withTransaction(em)`: a child context sharing the
factory cache, sequence counters, ref store, creation log and user store
by reference (the same cell indices), bound to the given entity manager. -/
def withTransaction (c : Ctx) (em : Nat) (w : World) : Ctx × World :=
  mkContext c.dsId em
    { factoryCache := some c.cacheCell, sequenceCounters := some c.seqCell,
      refStore := some c.refCell, creationLog := some c.logCell,
      store := some c.storeCell, entityManager := some em } w

/-- `SeedingContext.reset`: clear sequence counters, refs and the
creation log, and reset the temp-id counter to -1. -/
def resetM : ResM Unit := fun s =>
  (Except.ok (),
    { ctx := { s.ctx with tempIdCounter := -1 },
      w := { s.w with
        seqHeap := cellSet s.w.seqHeap s.ctx.seqCell [],
        refHeap := cellSet s.w.refHeap s.ctx.refCell [],
        logHeap := cellSet s.w.logHeap s.ctx.logCell [] } })

/-- One `em.remove(entity)` call: the external collaborator either
deletes (recorded on the trace, bound to the calling context's handle)
or throws, according to the failure oracle `remFail`. -/
def emRemoveM (remFail : Nat → Bool) (entId : Nat) : ResM Unit := fun s =>
  if remFail entId then (Except.error (Err.removeFailed entId), s)
  else
    (Except.ok (), { s with w := { s.w with removeTrace := s.w.removeTrace ++ [(s.ctx.em, entId)] } })

/-- The loop body of `cleanup`: iterate a list of log entries (already
in deletion order), removing each in turn. -/
def cleanupLoop (remFail : Nat → Bool) : List (Nat × Nat) → ResM Unit
  | [] => rpure ()
  | (_, entId) :: rest => rbind (emRemoveM remFail entId) fun _ => cleanupLoop remFail rest

/-- `SeedingContext.cleanup`: delete every logged entity in reverse
creation order through the active entity manager, then — only after all
removes succeeded — clear the creation log. -/
def cleanupM (remFail : Nat → Bool) : ResM Unit := fun s =>
  let log := cellGet s.w.logHeap s.ctx.logCell []
  (rbind (cleanupLoop remFail log.reverse) fun _ => fun s' =>
    (Except.ok (),
      { s' with w := { s'.w with logHeap := cellSet s'.w.logHeap s'.ctx.logCell [] } })) s

/-- The empty world: no cells, no entities, empty traces. -/
def emptyWorld : World :=
  { cacheHeap := [], seqHeap := [], refHeap := [], logHeap := [], storeHeap := [],
    entHeap := [], createdTrace := [], saveTrace := [], removeTrace := [],
    tempIdTrace := [], dbCounter := 0 }

/-- A fresh session: `createSeedingContext` on the empty world. -/
def initSt : St :=
  let p := createSeedingContext 0 0 emptyWorld
  { ctx := p.1, w := p.2 }

/-- The ref store a context sees (the content of its shared cell). -/
def refStoreOf (s : St) : List (String × Value) := cellGet s.w.refHeap s.ctx.refCell []

/-- The sequence counters a context sees. -/
def seqCountersOf (s : St) : List (Nat × Nat) := cellGet s.w.seqHeap s.ctx.seqCell []

/-- The creation log a context sees. -/
def creationLogOf (s : St) : List (Nat × Nat) := cellGet s.w.logHeap s.ctx.logCell []

/-- The fields of a heap entity. -/
def entityFields (s : St) (entId : Nat) : Fields := cellGet s.w.entHeap entId []

/-- A minimal single-blueprint configuration: one plain field and a
single-column primary key, no relations. -/
def cfgSimple : Config :=
  { blueprint := fun _ =>
      { model := 0, name := "SimpleFactory",
        define := [("name", Value.str "x")], variants := [] },
    meta := fun _ => some { primaryColumns := ["id"], relations := [] } }

/-- The first activated variant name missing from the variant table, if
any (phase 2 fails exactly there). -/
def firstBadVariant (bp : Blueprint) : List String → Option String
  | [] => none
  | name :: rest =>
    match lookupStr bp.variants name with
    | none => some name
    | some _ => firstBadVariant bp rest

/-- The outputs of N consecutive `nextSequence` calls for one factory
class on one context. -/
def iterNextSeq (fid : Nat) : Nat → ResM (List Nat)
  | 0 => rpure []
  | n + 1 =>
    rbind (nextSequenceM fid) fun k =>
    rbind (iterNextSeq fid n) fun ks => rpure (k :: ks)

/-- Blueprint family whose only field is a sequence descriptor with
transform `f` (the spec scenario `email: sequence(n => ...)`). -/
def cfgSeq (f : Nat → Value) : Config :=
  { blueprint := fun _ =>
      { model := 0, name := "SeqFactory",
        define := [("val", Value.desc (Descriptor.sequence f))], variants := [] },
    meta := fun _ => some { primaryColumns := ["id"], relations := [] } }

/-- Build N entities one at a time through `buildOne`, reading the given
field of each entity right after its build. -/
def buildValsLoop (cfg : Config) (fuel facId : Nat) (key : String) : Nat → ResM (List Value)
  | 0 => rpure []
  | n + 1 =>
    rbind (buildOne cfg fuel facId none) fun e =>
    rbind (getEntityFieldM e key) fun v =>
    rbind (buildValsLoop cfg fuel facId key n) fun vs =>
    rpure (v.getD Value.null :: vs)

/-- The state left by `getFactoryM 0`: unchanged when factory 0 is
cached, else the cache cell extended with the fresh instance. -/
def ensureFactoryCached (s : St) : St :=
  match lookupNat (cellGet s.w.cacheHeap s.ctx.cacheCell []) 0 with
  | some _ => s
  | none =>
    { s with w := { s.w with
        cacheHeap := cellSet s.w.cacheHeap s.ctx.cacheCell
          (setNat (cellGet s.w.cacheHeap s.ctx.cacheCell []) 0 ⟨0, []⟩) } }

/-- The factory-cache slot for factory 0 holds nothing but the plain
(variant-free) singleton — true of every state the public API reaches. -/
def CacheOk (s : St) : Prop :=
  ∀ g, lookupNat (cellGet s.w.cacheHeap s.ctx.cacheCell []) 0 = some g → g = (⟨0, []⟩ : FacInst)

/-- The state after one `buildOne` on `cfgSeq f`: the sequence counter
for factory 0 bumped, one new entity holding the transformed sequence
value and a temporary id, the temp-id counter decremented, and the
construction and temp-id traces extended. -/
def afterSeqBuild (f : Nat → Value) (s : St) : St :=
  let m := cellGet s.w.seqHeap s.ctx.seqCell []
  let c := (lookupNat m 0).getD 0
  { ctx := { s.ctx with tempIdCounter := s.ctx.tempIdCounter - 1 },
    w := { s.w with
      seqHeap := cellSet s.w.seqHeap s.ctx.seqCell (setNat m 0 (c + 1)),
      entHeap := s.w.entHeap ++ [[("val", f (c + 1)), ("id", Value.int s.ctx.tempIdCounter)]],
      createdTrace := s.w.createdTrace ++ [(0, s.w.entHeap.length)],
      tempIdTrace := s.w.tempIdTrace ++ [s.ctx.tempIdCounter] } }

/-- The canonical temp-id hand-out run: -1, -2, ..., -k. -/
def decRun (k : Nat) : List Int := (List.range k).map (fun i => -(1 + Int.ofNat i))

/-- The temp-id invariant: the counter sits exactly one below the ids
already handed out, and those ids are the run -1, -2, ... in hand-out
order. -/
def TempInv (s : St) : Prop :=
  s.ctx.tempIdCounter = -(1 + (s.w.tempIdTrace.length : Int)) ∧
  s.w.tempIdTrace = decRun s.w.tempIdTrace.length

/-- A computation preserves the temp-id invariant (whether it returns or
throws). -/
def TempPres {α : Type} (m : ResM α) : Prop := ∀ s, TempInv s → TempInv (m s).2

/-- A script of top-level factory invocations: factory class, overrides,
persist flag — an arbitrary mix of builds and persists of any types. -/
def runCalls (cfg : Config) (fuel : Nat) : List (Nat × Option Fields × Bool) → ResM (List Nat)
  | [] => rpure []
  | (facId, ov, persist) :: rest =>
    rbind (rbind (getFactoryM facId) fun fac => resolve cfg fuel fac ov persist) fun e =>
    rbind (runCalls cfg fuel rest) fun es => rpure (e :: es)

/-- A blueprint with a compound (two-column) primary key and no
relations. -/
def cfgCompound : Config :=
  { blueprint := fun _ =>
      { model := 0, name := "CompoundFactory",
        define := [("name", Value.str "x")], variants := [] },
    meta := fun _ => some { primaryColumns := ["a", "b"], relations := [] } }

/-- Is the value a relationship descriptor (belongsTo / hasMany /
hasOne) — the kinds deferred by phase 4 and resolved by creating related
entities? -/
def isRelDescriptor : Value → Bool
  | Value.desc (Descriptor.belongsTo _ _ _) => true
  | Value.desc (Descriptor.hasMany _ _ _ _) => true
  | Value.desc (Descriptor.hasOne _ _ _) => true
  | _ => false

/-- Pet/Owner pair: blueprint 0 (pet, model 0) declares
`owner: belongsTo(blueprint 1)` plus a plain field; blueprint 1 (owner,
model 1) is plain.  Metadata gives the pet an `ownerId` join column. -/
def cfgBelongs : Config :=
  { blueprint := fun i =>
      if i = 0 then
        { model := 0, name := "PetFactory",
          define := [("name", Value.str "pet"),
                     ("owner", Value.desc (Descriptor.belongsTo 1 none none))],
          variants := [] }
      else
        { model := 1, name := "OwnerFactory",
          define := [("uname", Value.str "u")], variants := [] },
    meta := fun m =>
      if m = 0 then
        some { primaryColumns := ["id"],
               relations := [("owner",
                 { joinColumns := [{ propertyName := "ownerId", referencedPk := some "id" }],
                   inverseSidePropertyPath := none })] }
      else
        some { primaryColumns := ["id"], relations := [] } }

/-- A parametric pair of mutually related blueprints: blueprint `aId`
(the parent, entity model `mA`) declares, besides arbitrary plain base
fields `baseA`, the relation field `childField`; blueprint `bId` (the
child, model `mB`) declares, besides plain base fields `baseB`, the
inverse field `invField: belongsTo(aId)`.  Each model has a single
primary-key column. -/
structure PairParams where
  aId : Nat
  bId : Nat
  mA : Nat
  mB : Nat
  childField : String
  invField : String
  pkA : String
  pkB : String
  baseA : Fields
  baseB : Fields

/-- Well-formedness of a mutual blueprint pair: the two factory classes
and the two models are distinct, the inverse relation property is a real
(non-empty) property distinct from the child's primary key, the relation
and primary-key fields are not redefined by the extra base fields, and
the extra base fields are plain values (no descriptors — any further
descriptor would create entities of its own, outside the mutual
relation). -/
structure PairWF (P : PairParams) : Prop where
  idNe : P.aId ≠ P.bId
  modelNe : P.mA ≠ P.mB
  invNonempty : P.invField ≠ ""
  invNePkB : P.invField ≠ P.pkB
  childNotBaseA : P.childField ∉ P.baseA.map Prod.fst
  pkANotBaseA : P.pkA ∉ P.baseA.map Prod.fst
  invNotBaseB : P.invField ∉ P.baseB.map Prod.fst
  pkBNotBaseB : P.pkB ∉ P.baseB.map Prod.fst
  plainA : ∀ kv ∈ P.baseA, isDescriptor kv.2 = false
  plainB : ∀ kv ∈ P.baseB, isDescriptor kv.2 = false
  nodupB : (P.baseB.map Prod.fst).Nodup

/-- The configuration generated by a mutual pair, parameterized by the
parent's relation descriptor (`hasMany bId n` or `hasOne bId`): the
metadata exposes `invField` as the inverse relation of `childField` and
single-column primary keys on both models. -/
def pairCfg (P : PairParams) (rel : Descriptor) : Config :=
  { blueprint := fun i =>
      if i = P.aId then
        { model := P.mA, name := "ParentFactory",
          define := P.baseA ++ [(P.childField, Value.desc rel)], variants := [] }
      else
        { model := P.mB, name := "ChildFactory",
          define := P.baseB ++
            [(P.invField, Value.desc (Descriptor.belongsTo P.aId none none))],
          variants := [] },
    meta := fun m =>
      if m = P.mA then
        some { primaryColumns := [P.pkA],
               relations := [(P.childField,
                 { joinColumns := [], inverseSidePropertyPath := some P.invField })] }
      else if m = P.mB then
        some { primaryColumns := [P.pkB],
               relations := [(P.invField,
                 { joinColumns := [], inverseSidePropertyPath := some P.childField })] }
      else none }

/-- The state a parent resolution of a mutual pair reaches, starting
from a fresh session, at the moment phase 7 starts resolving children:
both factories cached, the parent entity (id 0) constructed with its
primary key assigned (temporary -1 when building, database id 1 when
persisting), and the persist-mode bookkeeping done. -/
def pairPreSt (P : PairParams) (persist : Bool) : St :=
  { ctx := { dsId := 0, cacheCell := 0, seqCell := 0, refCell := 0, logCell := 0,
             storeCell := 0, tempIdCounter := if persist then -1 else -2, em := 0 },
    w := { cacheHeap := [[(P.aId, ⟨P.aId, []⟩), (P.bId, ⟨P.bId, []⟩)]],
           seqHeap := [[]], refHeap := [[]],
           logHeap := if persist then [[(P.mA, 0)]] else [[]],
           storeHeap := [[]],
           entHeap := [setField (mergeFields [] P.baseA) P.pkA
             (Value.int (if persist then 1 else -1))],
           createdTrace := [(P.mA, 0)],
           saveTrace := if persist then [(0, 0)] else [],
           removeTrace := [],
           tempIdTrace := if persist then [] else [-1],
           dbCounter := if persist then 1 else 0 } }

/-- A concrete mutual pair: factories 0/1, models 0/1, fields
`children`/`parent`, primary key `id` on both sides, no extra defaults. -/
def pairP0 : PairParams :=
  { aId := 0, bId := 1, mA := 0, mB := 1, childField := "children",
    invField := "parent", pkA := "id", pkB := "id", baseA := [], baseB := [] }

theorem lookupStr_append {α : Type} (a b : List (String × α)) (k : String) :
    lookupStr (a ++ b) k =
      match lookupStr a k with
      | some v => some v
      | none => lookupStr b k := by
  induction a with
  | nil => simp [lookupStr]
  | cons hd tl ih =>
    by_cases h : hd.1 = k <;> simp [lookupStr, h, ih]

theorem cellGet_cellSet_self {α : Type} (heap : List α) (i : Nat) (v : α) (dflt : α)
    (h : i < heap.length) : cellGet (cellSet heap i v) i dflt = v := by
  simp [cellGet, cellSet, List.getElem?_set_eq_of_lt _ h]

theorem cellSet_length {α : Type} (heap : List α) (i : Nat) (v : α) :
    (cellSet heap i v).length = heap.length := by
  simp [cellSet]

theorem lookupStr_singleton_self {α : Type} (k : String) (v : α) :
    lookupStr [(k, v)] k = some v := by
  simp [lookupStr]

/-- C8: the labeled-reference store is write-once: a first `setRef` on an
unset label succeeds; a second `setRef` on the same label fails with an
error naming that label and leaves the first-registered entity
retrievable; `ref` on a never-registered label fails with an error
naming it. -/
theorem c8_label_write_once (s : St) (label lbl2 : String) (v w2 : Value)
    (hcell : s.ctx.refCell < s.w.refHeap.length)
    (hunset : lookupStr (refStoreOf s) label = none)
    (hunset2 : lookupStr (refStoreOf s) lbl2 = none) :
    (setRefM label v s).1 = Except.ok () ∧
    (setRefM label w2 ((setRefM label v s).2)).1
      = Except.error (Err.refAlreadyRegistered label) ∧
    (getRefM label ((setRefM label w2 ((setRefM label v s).2)).2)).1 = Except.ok v ∧
    (getRefM lbl2 s).1 = Except.error (Err.refNotRegistered lbl2) := by
  simp only [refStoreOf] at hunset hunset2
  have h1 : setRefM label v s
      = (Except.ok (),
         { s with w := { s.w with
             refHeap := cellSet s.w.refHeap s.ctx.refCell
               (cellGet s.w.refHeap s.ctx.refCell [] ++ [(label, v)]) } }) := by
    simp [setRefM, hunset]
  have hs1store :
      cellGet (cellSet s.w.refHeap s.ctx.refCell
          (cellGet s.w.refHeap s.ctx.refCell [] ++ [(label, v)])) s.ctx.refCell []
        = cellGet s.w.refHeap s.ctx.refCell [] ++ [(label, v)] :=
    cellGet_cellSet_self _ _ _ _ hcell
  have hfound : lookupStr (cellGet s.w.refHeap s.ctx.refCell [] ++ [(label, v)]) label
      = some v := by
    rw [lookupStr_append, hunset, lookupStr_singleton_self]
  refine ⟨by rw [h1], ?_, ?_, by simp [getRefM, hunset2]⟩
  · rw [h1]
    simp [setRefM, hs1store, hfound]
  · rw [h1]
    simp [setRefM, getRefM, hs1store, hfound]

theorem c8_label_write_once_witness :
    (setRefM "admin" (Value.ent 0) initSt).1 = Except.ok () ∧
    (setRefM "admin" (Value.ent 1) ((setRefM "admin" (Value.ent 0) initSt).2)).1
      = Except.error (Err.refAlreadyRegistered "admin") ∧
    (getRefM "admin"
        ((setRefM "admin" (Value.ent 1) ((setRefM "admin" (Value.ent 0) initSt).2)).2)).1
      = Except.ok (Value.ent 0) ∧
    (getRefM "user" initSt).1 = Except.error (Err.refNotRegistered "user") :=
  c8_label_write_once initSt "admin" "user" (Value.ent 0) (Value.ent 1)
    (by decide) (by rfl) (by rfl)

theorem cleanupLoop_ok (remFail : Nat → Bool) :
    ∀ (l : List (Nat × Nat)) (s : St), (∀ p ∈ l, remFail p.2 = false) →
      cleanupLoop remFail l s =
        (Except.ok (),
         { s with w := { s.w with
             removeTrace := s.w.removeTrace ++ l.map (fun p => (s.ctx.em, p.2)) } }) := by
  intro l
  induction l with
  | nil => intro s _; simp [cleanupLoop, rpure]
  | cons hd tl ih =>
    intro s h
    have hhd : remFail hd.2 = false := h hd (List.mem_cons_self hd tl)
    have htl : ∀ p ∈ tl, remFail p.2 = false := fun p hp => h p (List.mem_cons_of_mem hd hp)
    simp only [cleanupLoop, rbind, emRemoveM, hhd, Bool.false_eq_true, if_false]
    rw [ih _ htl]
    simp

theorem cleanupLoop_frame (remFail : Nat → Bool) :
    ∀ (l : List (Nat × Nat)) (s : St),
      ((cleanupLoop remFail l s).2.ctx = s.ctx ∧
       (cleanupLoop remFail l s).2.w.logHeap = s.w.logHeap) := by
  intro l
  induction l with
  | nil => intro s; simp [cleanupLoop, rpure]
  | cons hd tl ih =>
    intro s
    by_cases hf : remFail hd.2
    · simp [cleanupLoop, rbind, emRemoveM, hf]
    · simp only [cleanupLoop, rbind, emRemoveM, hf, Bool.false_eq_true, if_false]
      exact ih _

theorem cleanupLoop_fails (remFail : Nat → Bool) :
    ∀ (l : List (Nat × Nat)) (s : St), (∃ p ∈ l, remFail p.2 = true) →
      ∃ e, (cleanupLoop remFail l s).1 = Except.error (Err.removeFailed e) ∧
        remFail e = true := by
  intro l
  induction l with
  | nil => intro s h; simp at h
  | cons hd tl ih =>
    intro s h
    by_cases hf : remFail hd.2
    · exact ⟨hd.2, by simp [cleanupLoop, rbind, emRemoveM, hf], hf⟩
    · have htl : ∃ p ∈ tl, remFail p.2 = true := by
        rcases h with ⟨p, hp, hpf⟩
        rcases List.mem_cons.mp hp with rfl | hmem
        · exact absurd hpf (by simp [hf])
        · exact ⟨p, hmem, hpf⟩
      simp only [cleanupLoop, rbind, emRemoveM, hf, Bool.false_eq_true, if_false]
      exact ih _ htl

/-- C7: on a failure-free run, `cleanup` invokes the collaborator's
delete through the context's active entity manager exactly once per
logged entry, in exact reverse creation order, and afterwards the
creation log is empty. -/
theorem c7_cleanup_reverse_order (remFail : Nat → Bool) (s : St)
    (hcell : s.ctx.logCell < s.w.logHeap.length)
    (hok : ∀ p ∈ creationLogOf s, remFail p.2 = false) :
    (cleanupM remFail s).1 = Except.ok () ∧
    ((cleanupM remFail s).2).w.removeTrace
      = s.w.removeTrace ++ (creationLogOf s).reverse.map (fun p => (s.ctx.em, p.2)) ∧
    creationLogOf ((cleanupM remFail s).2) = [] := by
  have hrev : ∀ p ∈ (creationLogOf s).reverse, remFail p.2 = false := by
    intro p hp; exact hok p (List.mem_reverse.mp hp)
  have hloop := cleanupLoop_ok remFail (creationLogOf s).reverse s hrev
  simp only [cleanupM, creationLogOf] at *
  simp only [rbind]
  rw [hloop]
  refine ⟨rfl, rfl, ?_⟩
  exact cellGet_cellSet_self _ _ _ _ (by simpa using hcell)

theorem c7_cleanup_reverse_order_witness :
    (cleanupM (fun _ => false)
        ((logCreationM 0 1 ((logCreationM 0 0 initSt).2)).2)).1 = Except.ok () ∧
    ((cleanupM (fun _ => false)
        ((logCreationM 0 1 ((logCreationM 0 0 initSt).2)).2)).2).w.removeTrace
      = [] ++ ([(0, 0), (0, 1)] : List (Nat × Nat)).reverse.map (fun p => (0, p.2)) ∧
    creationLogOf ((cleanupM (fun _ => false)
        ((logCreationM 0 1 ((logCreationM 0 0 initSt).2)).2)).2) = [] := by
  have h := c7_cleanup_reverse_order (fun _ => false)
    ((logCreationM 0 1 ((logCreationM 0 0 initSt).2)).2)
    (by decide) (by intro p _; rfl)
  exact ⟨h.1, by rw [h.2.1]; rfl, h.2.2⟩

/-- C9: if a delete fails partway through `cleanup`, the error
propagates to the caller and the creation log is left entirely
unchanged — including the entries already deleted before the failure —
because the log is cleared only after every delete succeeded. -/
theorem c9_cleanup_failure_keeps_log (remFail : Nat → Bool) (s : St)
    (hfail : ∃ p ∈ creationLogOf s, remFail p.2 = true) :
    (∃ e, (cleanupM remFail s).1 = Except.error (Err.removeFailed e) ∧ remFail e = true) ∧
    creationLogOf ((cleanupM remFail s).2) = creationLogOf s := by
  have hrev : ∃ p ∈ (creationLogOf s).reverse, remFail p.2 = true := by
    rcases hfail with ⟨p, hp, hpf⟩
    exact ⟨p, List.mem_reverse.mpr hp, hpf⟩
  rcases cleanupLoop_fails remFail (creationLogOf s).reverse s hrev with ⟨e, he, hef⟩
  have hframe := cleanupLoop_frame remFail (creationLogOf s).reverse s
  simp only [cleanupM, creationLogOf] at *
  constructor
  · refine ⟨e, ?_, hef⟩
    simp only [rbind]
    rcases hres : cleanupLoop remFail
        (cellGet s.w.logHeap s.ctx.logCell []).reverse s with ⟨r, s'⟩
    rw [hres] at he
    simp at he
    rw [he]
  · simp only [rbind]
    rcases hres : cleanupLoop remFail
        (cellGet s.w.logHeap s.ctx.logCell []).reverse s with ⟨r, s'⟩
    rw [hres] at he hframe
    simp at he hframe
    rw [he]
    simp [hframe.1, hframe.2]

theorem c9_cleanup_failure_keeps_log_witness :
    (∃ e, (cleanupM (fun n => n == 0)
        ((logCreationM 0 1 ((logCreationM 0 0 initSt).2)).2)).1
          = Except.error (Err.removeFailed e) ∧ (fun n => n == 0) e = true) ∧
    creationLogOf ((cleanupM (fun n => n == 0)
        ((logCreationM 0 1 ((logCreationM 0 0 initSt).2)).2)).2)
      = creationLogOf ((logCreationM 0 1 ((logCreationM 0 0 initSt).2)).2) :=
  c9_cleanup_failure_keeps_log (fun n => n == 0)
    ((logCreationM 0 1 ((logCreationM 0 0 initSt).2)).2)
    ⟨(0, 0), by decide, by decide⟩

theorem lookupNat_setNat_self {α : Type} (m : List (Nat × α)) (k : Nat) (v : α) :
    lookupNat (setNat m k v) k = some v := by
  induction m with
  | nil => simp [setNat, lookupNat]
  | cons hd tl ih =>
    by_cases h : hd.1 = k <;> simp [setNat, lookupNat, h, ih]

/-- C6: a child context derived by `withTransaction` shares the factory
cache, the sequence counters, the ref store, the creation log and the
user store with its parent by reference (identical cell indices, so in
any world both contexts read the very same structures, and a mutation
through one is visible through the other), while the child is bound to
the supplied entity-manager handle, distinct from the parent's when the
supplied handle is. -/
theorem c6_transaction_scope_sharing (c : Ctx) (em : Nat) (w : World) (hne : em ≠ c.em) :
    (withTransaction c em w).2 = w ∧
    (withTransaction c em w).1.cacheCell = c.cacheCell ∧
    (withTransaction c em w).1.seqCell = c.seqCell ∧
    (withTransaction c em w).1.refCell = c.refCell ∧
    (withTransaction c em w).1.logCell = c.logCell ∧
    (withTransaction c em w).1.storeCell = c.storeCell ∧
    (withTransaction c em w).1.em = em ∧
    (withTransaction c em w).1.em ≠ c.em ∧
    (∀ w2 : World, refStoreOf ⟨(withTransaction c em w).1, w2⟩ = refStoreOf ⟨c, w2⟩ ∧
       seqCountersOf ⟨(withTransaction c em w).1, w2⟩ = seqCountersOf ⟨c, w2⟩ ∧
       creationLogOf ⟨(withTransaction c em w).1, w2⟩ = creationLogOf ⟨c, w2⟩) ∧
    (∀ (w2 : World) (label : String) (v : Value), c.refCell < w2.refHeap.length →
       lookupStr (refStoreOf ⟨c, w2⟩) label = none →
       (getRefM label ⟨c, ((setRefM label v ⟨(withTransaction c em w).1, w2⟩).2).w⟩).1
         = Except.ok v) ∧
    (∀ (w2 : World) (fid : Nat), c.seqCell < w2.seqHeap.length →
       (nextSequenceM fid ⟨(withTransaction c em w).1, w2⟩).1
         = Except.ok ((lookupNat (cellGet w2.seqHeap c.seqCell []) fid).getD 0 + 1) ∧
       (nextSequenceM fid
           ⟨c, ((nextSequenceM fid ⟨(withTransaction c em w).1, w2⟩).2).w⟩).1
         = Except.ok ((lookupNat (cellGet w2.seqHeap c.seqCell []) fid).getD 0 + 2)) := by
  refine ⟨rfl, rfl, rfl, rfl, rfl, rfl, rfl, hne, ?_, ?_, ?_⟩
  · intro w2
    exact ⟨rfl, rfl, rfl⟩
  · intro w2 label v hcell hunset
    simp only [refStoreOf] at hunset
    have hset : setRefM label v ⟨(withTransaction c em w).1, w2⟩
        = (Except.ok (),
           ⟨(withTransaction c em w).1,
            { w2 with refHeap := cellSet w2.refHeap c.refCell (cellGet w2.refHeap c.refCell [] ++ [(label, v)]) }⟩) := by
      simp [setRefM, withTransaction, mkContext, hunset]
    rw [hset]
    simp only [getRefM]
    rw [cellGet_cellSet_self _ _ _ _ hcell, lookupStr_append, hunset,
      lookupStr_singleton_self]
  · intro w2 fid hcell
    constructor
    · simp [nextSequenceM, withTransaction, mkContext]
    · have hstep : nextSequenceM fid ⟨(withTransaction c em w).1, w2⟩
          = (Except.ok ((lookupNat (cellGet w2.seqHeap c.seqCell []) fid).getD 0 + 1),
             ⟨(withTransaction c em w).1,
              { w2 with seqHeap := cellSet w2.seqHeap c.seqCell (setNat (cellGet w2.seqHeap c.seqCell []) fid ((lookupNat (cellGet w2.seqHeap c.seqCell []) fid).getD 0 + 1)) }⟩) := by
        simp [nextSequenceM, withTransaction, mkContext]
      rw [hstep]
      simp only [nextSequenceM]
      rw [cellGet_cellSet_self _ _ _ _ hcell, lookupNat_setNat_self]
      rfl

theorem c6_transaction_scope_sharing_witness :
    (withTransaction initSt.ctx 7 initSt.w).2 = initSt.w ∧
    (withTransaction initSt.ctx 7 initSt.w).1.cacheCell = initSt.ctx.cacheCell ∧
    (withTransaction initSt.ctx 7 initSt.w).1.seqCell = initSt.ctx.seqCell ∧
    (withTransaction initSt.ctx 7 initSt.w).1.refCell = initSt.ctx.refCell ∧
    (withTransaction initSt.ctx 7 initSt.w).1.logCell = initSt.ctx.logCell ∧
    (withTransaction initSt.ctx 7 initSt.w).1.storeCell = initSt.ctx.storeCell ∧
    (withTransaction initSt.ctx 7 initSt.w).1.em = 7 ∧
    (withTransaction initSt.ctx 7 initSt.w).1.em ≠ initSt.ctx.em ∧
    (∀ w2 : World,
       refStoreOf ⟨(withTransaction initSt.ctx 7 initSt.w).1, w2⟩
         = refStoreOf ⟨initSt.ctx, w2⟩ ∧
       seqCountersOf ⟨(withTransaction initSt.ctx 7 initSt.w).1, w2⟩
         = seqCountersOf ⟨initSt.ctx, w2⟩ ∧
       creationLogOf ⟨(withTransaction initSt.ctx 7 initSt.w).1, w2⟩
         = creationLogOf ⟨initSt.ctx, w2⟩) ∧
    (∀ (w2 : World) (label : String) (v : Value),
       initSt.ctx.refCell < w2.refHeap.length →
       lookupStr (refStoreOf ⟨initSt.ctx, w2⟩) label = none →
       (getRefM label
           ⟨initSt.ctx,
            ((setRefM label v ⟨(withTransaction initSt.ctx 7 initSt.w).1, w2⟩).2).w⟩).1
         = Except.ok v) ∧
    (∀ (w2 : World) (fid : Nat), initSt.ctx.seqCell < w2.seqHeap.length →
       (nextSequenceM fid ⟨(withTransaction initSt.ctx 7 initSt.w).1, w2⟩).1
         = Except.ok ((lookupNat (cellGet w2.seqHeap initSt.ctx.seqCell []) fid).getD 0 + 1) ∧
       (nextSequenceM fid
           ⟨initSt.ctx,
            ((nextSequenceM fid ⟨(withTransaction initSt.ctx 7 initSt.w).1, w2⟩).2).w⟩).1
         = Except.ok ((lookupNat (cellGet w2.seqHeap initSt.ctx.seqCell []) fid).getD 0 + 2)) :=
  c6_transaction_scope_sharing initSt.ctx 7 initSt.w (by decide)

/-- C10: the temporary-id counter is not among the shared structures: a
`withTransaction` child starts fresh at -1 regardless of the parent's
counter state, so build-without-persist through the parent and through
the child can assign the same temporary id -1 to two different
entities. -/
theorem c10_tempid_counter_not_shared :
    (∀ (c : Ctx) (em : Nat) (w : World), (withTransaction c em w).1.tempIdCounter = -1) ∧
    ((buildOne cfgSimple 1 0 none initSt).2.ctx.tempIdCounter = -2 ∧
     (withTransaction (buildOne cfgSimple 1 0 none initSt).2.ctx 7
        (buildOne cfgSimple 1 0 none initSt).2.w).1.tempIdCounter = -1 ∧
     lookupField
       (entityFields
         (buildOne cfgSimple 1 0 none
           ⟨(withTransaction (buildOne cfgSimple 1 0 none initSt).2.ctx 7
               (buildOne cfgSimple 1 0 none initSt).2.w).1,
            (withTransaction (buildOne cfgSimple 1 0 none initSt).2.ctx 7
               (buildOne cfgSimple 1 0 none initSt).2.w).2⟩).2 0) "id"
       = some (Value.int (-1)) ∧
     lookupField
       (entityFields
         (buildOne cfgSimple 1 0 none
           ⟨(withTransaction (buildOne cfgSimple 1 0 none initSt).2.ctx 7
               (buildOne cfgSimple 1 0 none initSt).2.w).1,
            (withTransaction (buildOne cfgSimple 1 0 none initSt).2.ctx 7
               (buildOne cfgSimple 1 0 none initSt).2.w).2⟩).2 1) "id"
       = some (Value.int (-1))) :=
  ⟨fun _ _ _ => rfl, rfl, rfl, rfl, rfl⟩

theorem mergeVariants_fails (bp : Blueprint) :
    ∀ (names : List String) (schema : Fields) (bad : String),
      firstBadVariant bp names = some bad →
      mergeVariants bp names schema
        = Except.error (Err.unknownVariant bp.name bad (bp.variants.map Prod.fst)) := by
  intro names
  induction names with
  | nil => intro schema bad h; simp [firstBadVariant] at h
  | cons hd tl ih =>
    intro schema bad h
    rcases hlk : lookupStr bp.variants hd with _ | vd
    · simp only [firstBadVariant, hlk] at h
      cases h
      simp [mergeVariants, hlk]
    · simp only [firstBadVariant, hlk] at h
      simp only [mergeVariants, hlk]
      exact ih _ bad h

/-- C5: a resolution whose active variant list contains a name absent
from the blueprint's variant table fails during the variant-merge phase
with an error identifying the blueprint class name, the (first) bad
name, and the list of valid variant names — and the state is completely
unchanged, so no entity has been constructed or persisted; when the
blueprint declares no variants, the rendered message carries the
explicit "(none)" marker. -/
theorem c5_variant_fail_fast (cfg : Config) (fuel : Nat) (fac : FacInst)
    (overrides : Option Fields) (persist : Bool) (s : St) (bad : String)
    (hbad : firstBadVariant (cfg.blueprint fac.facId) fac.activeVariants = some bad) :
    resolve cfg (fuel + 1) fac overrides persist s
      = (Except.error (Err.unknownVariant (cfg.blueprint fac.facId).name bad
           ((cfg.blueprint fac.facId).variants.map Prod.fst)), s) ∧
    ((cfg.blueprint fac.facId).variants = [] →
      renderErr (Err.unknownVariant (cfg.blueprint fac.facId).name bad
          ((cfg.blueprint fac.facId).variants.map Prod.fst))
        = "Unknown variant \"" ++ bad ++ "\" on " ++ (cfg.blueprint fac.facId).name
            ++ ". Available variants: (none)") := by
  constructor
  · have hm := mergeVariants_fails (cfg.blueprint fac.facId) fac.activeVariants
      (cfg.blueprint fac.facId).define bad hbad
    simp only [resolve]
    rw [hm]
    simp [rbind, rlift, rthrow]
  · intro hempty
    simp [renderErr, hempty, joinComma, String.append_assoc]

theorem c5_variant_fail_fast_witness :
    (resolve cfgSimple 1 ⟨0, ["bogus"]⟩ none false initSt
      = (Except.error (Err.unknownVariant "SimpleFactory" "bogus" []), initSt) ∧
     ((cfgSimple.blueprint 0).variants = [] →
       renderErr (Err.unknownVariant (cfgSimple.blueprint 0).name "bogus"
           ((cfgSimple.blueprint 0).variants.map Prod.fst))
         = "Unknown variant \"bogus\" on SimpleFactory. Available variants: (none)")) := by
  have h := c5_variant_fail_fast cfgSimple 0 ⟨0, ["bogus"]⟩ none false initSt "bogus" rfl
  exact ⟨h.1, h.2⟩

theorem cellGet_append_self {α : Type} (l : List α) (x dflt : α) :
    cellGet (l ++ [x]) l.length dflt = x := by
  simp [cellGet]

theorem cellSet_append_self {α : Type} (l : List α) (x v : α) :
    cellSet (l ++ [x]) l.length v = l ++ [v] := by
  induction l with
  | nil => simp [cellSet]
  | cons hd tl ih =>
    simp only [cellSet] at *
    simp [List.set, ih]

theorem ensureFactoryCached_ctx (s : St) : (ensureFactoryCached s).ctx = s.ctx := by
  unfold ensureFactoryCached
  rcases lookupNat (cellGet s.w.cacheHeap s.ctx.cacheCell []) 0 <;> rfl

theorem ensureFactoryCached_seqHeap (s : St) :
    (ensureFactoryCached s).w.seqHeap = s.w.seqHeap := by
  unfold ensureFactoryCached
  rcases lookupNat (cellGet s.w.cacheHeap s.ctx.cacheCell []) 0 <;> rfl

theorem ensureFactoryCached_entHeap (s : St) :
    (ensureFactoryCached s).w.entHeap = s.w.entHeap := by
  unfold ensureFactoryCached
  rcases lookupNat (cellGet s.w.cacheHeap s.ctx.cacheCell []) 0 <;> rfl

theorem getFactoryM_zero (s : St) (hc : CacheOk s) :
    getFactoryM 0 s = (Except.ok (⟨0, []⟩ : FacInst), ensureFactoryCached s) := by
  rcases h : lookupNat (cellGet s.w.cacheHeap s.ctx.cacheCell []) 0 with _ | g
  · simp [getFactoryM, ensureFactoryCached, h]
  · have hg := hc g h
    subst hg
    simp [getFactoryM, ensureFactoryCached, h]

theorem resolve_cfgSeq_step (f : Nat → Value) (s0 : St) :
    resolve (cfgSeq f) 1 ⟨0, []⟩ none false s0
      = (Except.ok s0.w.entHeap.length, afterSeqBuild f s0) := by
  simp [resolve, cfgSeq, mergeVariants, rlift, rbind, rpure, rthrow, phase4, nextSequenceM,
    phase5Loop, allocEntityM, assignSchemaM, mergeFields, setField, assignTempIdsLoop,
    primaryKeyPropertyNames, getEntityFieldM, isNullish, lookupField, nextTempIdM,
    setEntityFieldM, phase7HMLoop, phase7HOLoop, afterSeqBuild,
    cellGet_append_self, cellSet_append_self]

theorem buildOne_cfgSeq_step (f : Nat → Value) (s : St) (hc : CacheOk s) :
    buildOne (cfgSeq f) 1 0 none s
      = (Except.ok s.w.entHeap.length, afterSeqBuild f (ensureFactoryCached s)) := by
  unfold buildOne
  simp only [rbind]
  rw [getFactoryM_zero s hc]
  dsimp only
  rw [resolve_cfgSeq_step, ensureFactoryCached_entHeap]

theorem cacheOk_ensure (s : St) (hc : CacheOk s) : CacheOk (ensureFactoryCached s) := by
  unfold ensureFactoryCached
  rcases h : lookupNat (cellGet s.w.cacheHeap s.ctx.cacheCell []) 0 with _ | g
  · intro g' hg'
    by_cases hlt : s.ctx.cacheCell < s.w.cacheHeap.length
    · rw [show (cellGet (cellSet s.w.cacheHeap s.ctx.cacheCell
          (setNat (cellGet s.w.cacheHeap s.ctx.cacheCell []) 0 (⟨0, []⟩ : FacInst)))
          s.ctx.cacheCell []) = setNat (cellGet s.w.cacheHeap s.ctx.cacheCell []) 0 ⟨0, []⟩
          from cellGet_cellSet_self _ _ _ _ hlt, lookupNat_setNat_self] at hg'
      exact (Option.some_inj.mp hg').symm
    · rw [show cellSet s.w.cacheHeap s.ctx.cacheCell
          (setNat (cellGet s.w.cacheHeap s.ctx.cacheCell []) 0 (⟨0, []⟩ : FacInst))
            = s.w.cacheHeap
          from List.set_eq_of_length_le (Nat.le_of_not_lt hlt)] at hg'
      rw [h] at hg'
      exact Option.noConfusion hg'
  · exact hc

theorem cacheOk_afterSeqBuild (f : Nat → Value) (s : St) (hc : CacheOk s) :
    CacheOk (afterSeqBuild f s) := by
  intro g hg
  exact hc g hg

theorem afterSeqBuild_seqValue (f : Nat → Value) (s : St)
    (hseq : s.ctx.seqCell < s.w.seqHeap.length) :
    (lookupNat (cellGet (afterSeqBuild f s).w.seqHeap (afterSeqBuild f s).ctx.seqCell []) 0).getD 0
      = (lookupNat (cellGet s.w.seqHeap s.ctx.seqCell []) 0).getD 0 + 1 := by
  simp only [afterSeqBuild]
  rw [cellGet_cellSet_self _ _ _ _ hseq, lookupNat_setNat_self]
  rfl

theorem afterSeqBuild_seqBound (f : Nat → Value) (s : St)
    (hseq : s.ctx.seqCell < s.w.seqHeap.length) :
    (afterSeqBuild f s).ctx.seqCell < (afterSeqBuild f s).w.seqHeap.length := by
  simp only [afterSeqBuild, cellSet_length]
  exact hseq

theorem buildValsLoop_cfgSeq (f : Nat → Value) :
    ∀ (N : Nat) (s : St), CacheOk s → s.ctx.seqCell < s.w.seqHeap.length →
      (buildValsLoop (cfgSeq f) 1 0 "val" N s).1
        = Except.ok ((List.range N).map
            (fun i => f ((lookupNat (cellGet s.w.seqHeap s.ctx.seqCell []) 0).getD 0 + i + 1))) := by
  intro N
  induction N with
  | zero => intro s hc hseq; simp [buildValsLoop, rpure]
  | succ n ih =>
    intro s hc hseq
    have hc0 := cacheOk_ensure s hc
    have hseq0 : (ensureFactoryCached s).ctx.seqCell
        < (ensureFactoryCached s).w.seqHeap.length := by
      rw [ensureFactoryCached_ctx, ensureFactoryCached_seqHeap]; exact hseq
    have hcA := cacheOk_afterSeqBuild f _ hc0
    have hseqA := afterSeqBuild_seqBound f _ hseq0
    have hvalA := afterSeqBuild_seqValue f _ hseq0
    have hvalEq : (lookupNat (cellGet (ensureFactoryCached s).w.seqHeap
          (ensureFactoryCached s).ctx.seqCell []) 0).getD 0
        = (lookupNat (cellGet s.w.seqHeap s.ctx.seqCell []) 0).getD 0 := by
      rw [ensureFactoryCached_ctx, ensureFactoryCached_seqHeap]
    have hentEq : (ensureFactoryCached s).w.entHeap = s.w.entHeap :=
      ensureFactoryCached_entHeap s
    simp only [buildValsLoop, rbind]
    rw [buildOne_cfgSeq_step f s hc]
    dsimp only
    have hread : getEntityFieldM s.w.entHeap.length "val"
        (afterSeqBuild f (ensureFactoryCached s))
        = (Except.ok (some (f ((lookupNat (cellGet s.w.seqHeap s.ctx.seqCell []) 0).getD 0 + 1))),
           afterSeqBuild f (ensureFactoryCached s)) := by
      simp only [getEntityFieldM, afterSeqBuild]
      rw [← hentEq, ← hvalEq]
      rw [cellGet_append_self]
      simp [lookupField]
    rw [hread]
    dsimp only
    have hrest := ih (afterSeqBuild f (ensureFactoryCached s)) hcA hseqA
    rw [hvalA, hvalEq] at hrest
    rcases hres : buildValsLoop (cfgSeq f) 1 0 "val" n
        (afterSeqBuild f (ensureFactoryCached s)) with ⟨r, s'⟩
    rw [hres] at hrest
    simp only at hrest
    subst hrest
    simp only [rpure, Option.getD_some]
    rw [List.range_succ_eq_map, List.map_cons, List.map_map]
    have harith : ∀ i : Nat,
        (lookupNat (cellGet s.w.seqHeap s.ctx.seqCell []) 0).getD 0 + 1 + i + 1
          = (lookupNat (cellGet s.w.seqHeap s.ctx.seqCell []) 0).getD 0 + (i + 1) + 1 := by
      intro i; omega
    simp [Function.comp, harith]

theorem iterNextSeq_outputs (fid : Nat) :
    ∀ (N : Nat) (s : St), s.ctx.seqCell < s.w.seqHeap.length →
      (iterNextSeq fid N s).1
        = Except.ok ((List.range N).map
            (fun i => (lookupNat (cellGet s.w.seqHeap s.ctx.seqCell []) fid).getD 0 + i + 1)) := by
  intro N
  induction N with
  | zero => intro s hseq; simp [iterNextSeq, rpure]
  | succ n ih =>
    intro s hseq
    simp only [iterNextSeq, rbind, nextSequenceM]
    have hbound : s.ctx.seqCell
        < (cellSet s.w.seqHeap s.ctx.seqCell
            (setNat (cellGet s.w.seqHeap s.ctx.seqCell []) fid
              ((lookupNat (cellGet s.w.seqHeap s.ctx.seqCell []) fid).getD 0 + 1))).length := by
      rw [cellSet_length]; exact hseq
    have hrest := ih ({ s with w := { s.w with
        seqHeap := cellSet s.w.seqHeap s.ctx.seqCell
          (setNat (cellGet s.w.seqHeap s.ctx.seqCell []) fid
            ((lookupNat (cellGet s.w.seqHeap s.ctx.seqCell []) fid).getD 0 + 1)) } }) hbound
    rw [show cellGet (cellSet s.w.seqHeap s.ctx.seqCell
          (setNat (cellGet s.w.seqHeap s.ctx.seqCell []) fid
            ((lookupNat (cellGet s.w.seqHeap s.ctx.seqCell []) fid).getD 0 + 1)))
          s.ctx.seqCell []
        = setNat (cellGet s.w.seqHeap s.ctx.seqCell []) fid
            ((lookupNat (cellGet s.w.seqHeap s.ctx.seqCell []) fid).getD 0 + 1)
      from cellGet_cellSet_self _ _ _ _ hseq, lookupNat_setNat_self] at hrest
    rcases hres : iterNextSeq fid n ({ s with w := { s.w with
        seqHeap := cellSet s.w.seqHeap s.ctx.seqCell
          (setNat (cellGet s.w.seqHeap s.ctx.seqCell []) fid
            ((lookupNat (cellGet s.w.seqHeap s.ctx.seqCell []) fid).getD 0 + 1)) } }) with ⟨r, s'⟩
    rw [hres] at hrest
    simp only at hrest
    subst hrest
    simp only [rpure]
    rw [List.range_succ_eq_map, List.map_cons, List.map_map]
    have harith : ∀ i : Nat,
        (lookupNat (cellGet s.w.seqHeap s.ctx.seqCell []) fid).getD 0 + 1 + i + 1
          = (lookupNat (cellGet s.w.seqHeap s.ctx.seqCell []) fid).getD 0 + (i + 1) + 1 := by
      intro i; omega
    simp [Function.comp, harith]

/-- C3: sequence monotonicity.  First conjunct: for any factory class,
N consecutive `nextSequence` calls on one context whose counter for that
class is unset (treated as 0) return exactly 1..N in call order (each
call returning the previous value plus 1).  Second conjunct: at the
resolver level, building N entities of a blueprint whose field holds
`sequence(f)` yields field values f(1), ..., f(N) — the transform
applied to the handed-out integers. -/
theorem c3_sequence_monotonic :
    (∀ (fid N : Nat) (s : St), s.ctx.seqCell < s.w.seqHeap.length →
       (lookupNat (seqCountersOf s) fid).getD 0 = 0 →
       (iterNextSeq fid N s).1 = Except.ok ((List.range N).map (fun i => i + 1))) ∧
    (∀ (f : Nat → Value) (N : Nat),
       (buildValsLoop (cfgSeq f) 1 0 "val" N initSt).1
         = Except.ok ((List.range N).map (fun i => f (i + 1)))) := by
  constructor
  · intro fid N s hseq hzero
    rw [iterNextSeq_outputs fid N s hseq]
    simp only [seqCountersOf] at hzero
    simp [hzero]
  · intro f N
    have hcache : CacheOk initSt := by
      intro g hg
      exact Option.noConfusion hg
    rw [buildValsLoop_cfgSeq f N initSt hcache (by decide)]
    have hzero : (lookupNat (cellGet initSt.w.seqHeap initSt.ctx.seqCell []) 0).getD 0 = 0 :=
      rfl
    simp [hzero]

theorem c3_sequence_monotonic_witness :
    (iterNextSeq 4 3 initSt).1 = Except.ok [1, 2, 3] ∧
    (buildValsLoop (cfgSeq (fun n => Value.int (Int.ofNat n))) 1 0 "val" 3 initSt).1
      = Except.ok [Value.int 1, Value.int 2, Value.int 3] := by
  refine ⟨?_, ?_⟩
  · rw [c3_sequence_monotonic.1 4 3 initSt (by decide) rfl]
    rfl
  · rw [c3_sequence_monotonic.2 (fun n => Value.int (Int.ofNat n)) 3]
    rfl

theorem decRun_succ (k : Nat) : decRun (k + 1) = decRun k ++ [-(1 + (k : Int))] := by
  simp [decRun, List.range_succ]

theorem decRun_length (k : Nat) : (decRun k).length = k := by
  simp only [decRun, List.length_map, List.length_range]

theorem tempPres_rpure {α : Type} (a : α) : TempPres (rpure a) := fun _ h => h

theorem tempPres_rthrow {α : Type} (e : Err) : TempPres (rthrow (α := α) e) := fun _ h => h

theorem tempPres_rbind {α β : Type} {m : ResM α} {f : α → ResM β}
    (hm : TempPres m) (hf : ∀ a, TempPres (f a)) : TempPres (rbind m f) := by
  intro s h
  simp only [rbind]
  rcases hres : m s with ⟨r, s'⟩
  have hs' : TempInv s' := by
    have := hm s h
    rw [hres] at this
    exact this
  cases r with
  | ok a => exact hf a s' hs'
  | error e => exact hs'

theorem tempPres_rlift {α : Type} (x : Except Err α) : TempPres (rlift x) := by
  cases x with
  | ok a => exact tempPres_rpure a
  | error e => exact tempPres_rthrow e

theorem tempPres_getFactoryM (facId : Nat) : TempPres (getFactoryM facId) := by
  intro s h
  simp only [getFactoryM]
  rcases lookupNat (cellGet s.w.cacheHeap s.ctx.cacheCell []) facId <;> exact h

theorem tempPres_nextSequenceM (facId : Nat) : TempPres (nextSequenceM facId) :=
  fun _ h => h

theorem tempPres_nextTempIdM : TempPres nextTempIdM := by
  intro s h
  obtain ⟨h1, h2⟩ := h
  constructor
  · simp only [nextTempIdM, List.length_append, List.length_singleton]
    rw [h1]
    push_cast
    ring
  · simp only [nextTempIdM, List.length_append, List.length_singleton]
    rw [h1]
    set k := s.w.tempIdTrace.length with hk
    rw [decRun_succ, h2]

theorem tempPres_getRefM (label : String) : TempPres (getRefM label) := by
  intro s h
  simp only [getRefM]
  rcases lookupStr (cellGet s.w.refHeap s.ctx.refCell []) label <;> exact h

theorem tempPres_logCreationM (modelId entId : Nat) : TempPres (logCreationM modelId entId) :=
  fun _ h => h

theorem tempPres_allocEntityM (modelId : Nat) : TempPres (allocEntityM modelId) :=
  fun _ h => h

theorem tempPres_getEntityFieldM (entId : Nat) (key : String) :
    TempPres (getEntityFieldM entId key) := fun _ h => h

theorem tempPres_setEntityFieldM (entId : Nat) (key : String) (v : Value) :
    TempPres (setEntityFieldM entId key v) := fun _ h => h

theorem tempPres_assignSchemaM (entId : Nat) (schema : Fields) :
    TempPres (assignSchemaM entId schema) := fun _ h => h

theorem tempPres_getPropM (v : Value) (name : String) : TempPres (getPropM v name) :=
  fun _ h => h

theorem tempPres_emSaveM (cfg : Config) (modelId entId : Nat) :
    TempPres (emSaveM cfg modelId entId) := fun _ h => h

theorem tempPres_phase4 (facId : Nat) :
    ∀ (entries : List (String × Value)) (schema : Fields) (bt : List BTEntry)
      (hm : List HMEntry) (ho : List HOEntry),
      TempPres (phase4 facId entries schema bt hm ho) := by
  intro entries
  induction entries with
  | nil => intro schema bt hm ho; exact tempPres_rpure _
  | cons hd tl ih =>
    intro schema bt hm ho
    obtain ⟨key, v⟩ := hd
    cases v with
    | desc d =>
      cases d with
      | sequence f =>
        exact tempPres_rbind (tempPres_nextSequenceM facId) (fun n => ih _ _ _ _)
      | ref label =>
        exact tempPres_rbind (tempPres_getRefM label) (fun rv => ih _ _ _ _)
      | belongsTo fr ov vs => exact ih _ _ _ _
      | hasMany fr c ov vs => exact ih _ _ _ _
      | hasOne fr ov vs => exact ih _ _ _ _
    | null => exact ih _ _ _ _
    | int n => exact ih _ _ _ _
    | str s => exact ih _ _ _ _
    | ent id => exact ih _ _ _ _
    | obj fs => exact ih _ _ _ _
    | list vs => exact ih _ _ _ _

theorem tempPres_setFkLoop (relProp : String) (parent : Value) :
    ∀ (jcs : List JoinCol) (schema : Fields), TempPres (setFkLoop relProp parent jcs schema) := by
  intro jcs
  induction jcs with
  | nil => intro schema; exact tempPres_rpure _
  | cons jc rest ih =>
    intro schema
    simp only [setFkLoop]
    rcases jc.referencedPk with _ | pkName
    · exact ih _
    · dsimp only
      by_cases hcond : jc.propertyName ≠ "" ∧ jc.propertyName ≠ relProp
      · rw [if_pos hcond]
        exact tempPres_rbind (tempPres_getPropM _ _) (fun pv => ih _)
      · rw [if_neg hcond]
        exact ih _

theorem tempPres_setForeignKeyM (cfg : Config) (modelId : Nat) (schema : Fields)
    (relProp : String) (parent : Value) :
    TempPres (setForeignKeyM cfg modelId schema relProp parent) := by
  unfold setForeignKeyM
  rcases hmeta : cfg.meta modelId with _ | md
  · exact tempPres_rpure _
  · rcases hrel : findRelation md relProp with _ | rel
    · simp only [hrel]
      exact tempPres_rpure _
    · simp only [hrel]
      exact tempPres_setFkLoop _ _ _ _

theorem tempPres_phase5Loop (cfg : Config) (recur : FacInst → Option Fields → ResM Nat)
    (modelId : Nat) (hrec : ∀ f o, TempPres (recur f o)) :
    ∀ (l : List BTEntry) (schema : Fields), TempPres (phase5Loop cfg recur modelId l schema) := by
  intro l
  induction l with
  | nil => intro schema; exact tempPres_rpure _
  | cons hd tl ih =>
    intro schema
    obtain ⟨key, fr, ovOrEnt, vs⟩ := hd
    simp only [phase5Loop]
    refine tempPres_rbind (tempPres_getFactoryM fr) (fun pf0 => ?_)
    refine tempPres_rbind ?_ (fun parent =>
      tempPres_rbind (tempPres_setForeignKeyM _ _ _ _ _) (fun schema' => ih _))
    rcases ovOrEnt with _ | o
    · exact tempPres_rbind (hrec _ _) (fun pid => tempPres_rpure _)
    · by_cases hex : hasNonNullPrimaryKey cfg (cfg.blueprint fr).model o
      · simp only [hex, if_true]
        exact tempPres_rpure _
      · simp only [hex, if_false]
        exact tempPres_rbind (hrec _ _) (fun pid => tempPres_rpure _)

theorem tempPres_assignTempIdsLoop (entId : Nat) :
    ∀ (cols : List String), TempPres (assignTempIdsLoop entId cols) := by
  intro cols
  induction cols with
  | nil => exact tempPres_rpure _
  | cons col rest ih =>
    simp only [assignTempIdsLoop]
    refine tempPres_rbind (tempPres_getEntityFieldM _ _) (fun v => ?_)
    by_cases hn : isNullish v
    · simp only [hn, if_true]
      exact tempPres_rbind tempPres_nextTempIdM
        (fun t => tempPres_rbind (tempPres_setEntityFieldM _ _ _) (fun _ => ih))
    · simp only [hn, if_false]
      exact ih

theorem tempPres_snapshotRelations (entId : Nat) :
    ∀ (l : List BTEntry), TempPres (snapshotRelations entId l) := by
  intro l
  induction l with
  | nil => exact tempPres_rpure _
  | cons hd tl ih =>
    obtain ⟨key, fr, ov, vs⟩ := hd
    exact tempPres_rbind (tempPres_getEntityFieldM _ _)
      (fun v => tempPres_rbind ih (fun others => tempPres_rpure _))

theorem tempPres_restoreRelations (entId : Nat) :
    ∀ (l : List (String × Option Value)), TempPres (restoreRelations entId l) := by
  intro l
  induction l with
  | nil => exact tempPres_rpure _
  | cons hd tl ih =>
    obtain ⟨key, v⟩ := hd
    exact tempPres_rbind (tempPres_setEntityFieldM _ _ _) (fun _ => ih)

theorem tempPres_persistEntityM (cfg : Config) (modelId : Nat) (btL : List BTEntry)
    (entId : Nat) : TempPres (persistEntityM cfg modelId btL entId) :=
  tempPres_rbind (tempPres_snapshotRelations _ _)
    (fun _ => tempPres_rbind (tempPres_emSaveM _ _ _)
      (fun _ => tempPres_rbind (tempPres_restoreRelations _ _)
        (fun _ => tempPres_logCreationM _ _)))

theorem tempPres_resolveChildren (recur : FacInst → Option Fields → ResM Nat)
    (childFac : FacInst) (ov : Fields) (hrec : ∀ f o, TempPres (recur f o)) :
    ∀ (n : Nat), TempPres (resolveChildren recur childFac ov n) := by
  intro n
  induction n with
  | zero => exact tempPres_rpure _
  | succ k ih =>
    exact tempPres_rbind (hrec _ _)
      (fun c => tempPres_rbind ih (fun cs => tempPres_rpure _))

theorem tempPres_phase7HMLoop (cfg : Config) (recur : FacInst → Option Fields → ResM Nat)
    (modelId entId : Nat) (hrec : ∀ f o, TempPres (recur f o)) :
    ∀ (l : List HMEntry), TempPres (phase7HMLoop cfg recur modelId entId l) := by
  intro l
  induction l with
  | nil => exact tempPres_rpure _
  | cons hd tl ih =>
    obtain ⟨key, fr, count, ov, vs⟩ := hd
    exact tempPres_rbind (tempPres_getFactoryM fr)
      (fun cf0 => tempPres_rbind (tempPres_resolveChildren _ _ _ hrec _)
        (fun children => tempPres_rbind (tempPres_setEntityFieldM _ _ _) (fun _ => ih)))

theorem tempPres_phase7HOLoop (cfg : Config) (recur : FacInst → Option Fields → ResM Nat)
    (modelId entId : Nat) (hrec : ∀ f o, TempPres (recur f o)) :
    ∀ (l : List HOEntry), TempPres (phase7HOLoop cfg recur modelId entId l) := by
  intro l
  induction l with
  | nil => exact tempPres_rpure _
  | cons hd tl ih =>
    obtain ⟨key, fr, ov, vs⟩ := hd
    exact tempPres_rbind (tempPres_getFactoryM fr)
      (fun cf0 => tempPres_rbind (hrec _ _)
        (fun child => tempPres_rbind (tempPres_setEntityFieldM _ _ _) (fun _ => ih)))

theorem tempPres_resolve (cfg : Config) :
    ∀ (fuel : Nat) (fac : FacInst) (ov : Option Fields) (persist : Bool),
      TempPres (resolve cfg fuel fac ov persist) := by
  intro fuel
  induction fuel with
  | zero => intro fac ov persist; exact tempPres_rthrow _
  | succ n ih =>
    intro fac ov persist
    simp only [resolve]
    refine tempPres_rbind (tempPres_rlift _) (fun schema1 => ?_)
    refine tempPres_rbind (tempPres_phase4 _ _ _ _ _ _) (fun res => ?_)
    obtain ⟨schema3, btL, hmL, hoL⟩ := res
    refine tempPres_rbind
      (tempPres_phase5Loop cfg _ _ (fun f o => ih f o persist) _ _) (fun schema4 => ?_)
    refine tempPres_rbind (tempPres_allocEntityM _) (fun entId => ?_)
    refine tempPres_rbind (tempPres_assignSchemaM _ _) (fun _ => ?_)
    refine tempPres_rbind ?_ (fun _ =>
      tempPres_rbind (tempPres_phase7HMLoop cfg _ _ _ (fun f o => ih f o persist) _)
        (fun _ => tempPres_rbind
          (tempPres_phase7HOLoop cfg _ _ _ (fun f o => ih f o persist) _)
          (fun _ => tempPres_rpure _)))
    by_cases hp : persist
    · simp only [hp, if_true]
      exact tempPres_persistEntityM _ _ _ _
    · simp only [hp, if_false]
      exact tempPres_assignTempIdsLoop _ _

theorem tempPres_runCalls (cfg : Config) (fuel : Nat) :
    ∀ (calls : List (Nat × Option Fields × Bool)), TempPres (runCalls cfg fuel calls) := by
  intro calls
  induction calls with
  | nil => exact tempPres_rpure _
  | cons hd tl ih =>
    obtain ⟨facId, ov, persist⟩ := hd
    exact tempPres_rbind
      (tempPres_rbind (tempPres_getFactoryM _) (fun fac => tempPres_resolve cfg fuel fac ov persist))
      (fun e => tempPres_rbind ih (fun es => tempPres_rpure _))

theorem decRun_pairwise (k : Nat) : (decRun k).Pairwise (· > ·) := by
  unfold decRun
  rw [List.pairwise_map]
  exact (List.pairwise_lt_range k).imp
    (by intro a b hab; simp only [Int.ofNat_eq_natCast]; omega)

theorem decRun_neg (k : Nat) : ∀ t ∈ decRun k, t < 0 := by
  intro t ht
  simp only [decRun, List.mem_map, List.mem_range] at ht
  obtain ⟨i, _, rfl⟩ := ht
  simp only [Int.ofNat_eq_natCast]
  omega

theorem decRun_nodup (k : Nat) : (decRun k).Nodup :=
  (decRun_pairwise k).imp (fun h => ne_of_gt h)

/-- C4: across any mix of build/persist invocations on one fresh
context, the handed-out temporary ids are exactly -1, -2, ... in
invocation order — pairwise distinct, strictly decreasing, all negative,
starting at -1 — and (compound-key scenario) one build of an entity with
a two-column primary key consumes one independent decrement per column
that is still null after construction. -/
theorem c4_temp_id_uniqueness (cfg : Config) (fuel : Nat)
    (calls : List (Nat × Option Fields × Bool)) :
    ((runCalls cfg fuel calls initSt).2.w.tempIdTrace
        = decRun (runCalls cfg fuel calls initSt).2.w.tempIdTrace.length) ∧
    (runCalls cfg fuel calls initSt).2.w.tempIdTrace.Pairwise (· > ·) ∧
    (∀ t ∈ (runCalls cfg fuel calls initSt).2.w.tempIdTrace, t < 0) ∧
    (runCalls cfg fuel calls initSt).2.w.tempIdTrace.Nodup ∧
    lookupField (entityFields (buildOne cfgCompound 1 0 none initSt).2 0) "a"
      = some (Value.int (-1)) ∧
    lookupField (entityFields (buildOne cfgCompound 1 0 none initSt).2 0) "b"
      = some (Value.int (-2)) ∧
    (buildOne cfgCompound 1 0 none initSt).2.ctx.tempIdCounter = -3 ∧
    (buildOne cfgCompound 1 0 none initSt).2.w.tempIdTrace = [-1, -2] := by
  have hinv : TempInv (runCalls cfg fuel calls initSt).2 :=
    tempPres_runCalls cfg fuel calls initSt ⟨rfl, rfl⟩
  obtain ⟨h1, h2⟩ := hinv
  refine ⟨h2, ?_, ?_, ?_, rfl, rfl, rfl, rfl⟩
  · rw [h2]; exact decRun_pairwise _
  · rw [h2]; exact decRun_neg _
  · rw [h2]; exact decRun_nodup _

theorem cellGet_append_lt {α : Type} (l l2 : List α) (j : Nat) (dflt : α)
    (h : j < l.length) : cellGet (l ++ l2) j dflt = cellGet l j dflt := by
  simp [cellGet, List.getElem?_append, h]

theorem range_succ_map {α : Type} (g : Nat → α) (k : Nat) :
    (List.range (k + 1)).map g = g 0 :: (List.range k).map (fun i => g (i + 1)) := by
  rw [List.range_succ_eq_map, List.map_cons, List.map_map]
  rfl

theorem lookupField_setField_self (fs : Fields) (k : String) (v : Value) :
    lookupField (setField fs k v) k = some v := by
  induction fs with
  | nil => simp [setField, lookupField]
  | cons hd tl ih =>
    by_cases h : hd.1 = k <;> simp [setField, lookupField, h, ih]

theorem lookupField_setField_ne (fs : Fields) (k1 k : String) (v : Value) (h : k1 ≠ k) :
    lookupField (setField fs k1 v) k = lookupField fs k := by
  induction fs with
  | nil => simp [setField, lookupField, h]
  | cons hd tl ih =>
    by_cases h2 : hd.1 = k1
    · simp [setField, lookupField, h2, h]
    · by_cases h3 : hd.1 = k <;> simp [setField, lookupField, h2, h3, Ne.symm h, ih]

theorem mergeFields_lookup_notin (ov : Fields) (k : String) :
    ∀ (base : Fields), k ∉ ov.map Prod.fst →
      lookupField (mergeFields base ov) k = lookupField base k := by
  induction ov with
  | nil => intro base _; rfl
  | cons hd tl ih =>
    intro base hk
    simp only [List.map_cons, List.mem_cons] at hk
    push_neg at hk
    have : mergeFields base (hd :: tl) = mergeFields (setField base hd.1 hd.2) tl := rfl
    rw [this, ih _ hk.2, lookupField_setField_ne _ _ _ _ (fun he => hk.1 he.symm)]

theorem mergeFields_lookup_mem (ov : Fields) (k : String) (v : Value) :
    ∀ (base : Fields), (ov.map Prod.fst).Nodup → lookupField ov k = some v →
      lookupField (mergeFields base ov) k = some v := by
  induction ov with
  | nil => intro base _ h; simp [lookupField] at h
  | cons hd tl ih =>
    intro base hnd hlk
    simp only [List.map_cons, List.nodup_cons] at hnd
    have hstep : mergeFields base (hd :: tl) = mergeFields (setField base hd.1 hd.2) tl := rfl
    by_cases h : hd.1 = k
    · have hv : hd.2 = v := by
        simp only [lookupField, h, if_pos rfl] at hlk
        · exact Option.some_inj.mp hlk
      rw [hstep, mergeFields_lookup_notin tl k _ (by rw [← h]; exact hnd.1), ← h,
        lookupField_setField_self, hv]
    · have hlk' : lookupField tl k = some v := by
        simpa [lookupField, h] using hlk
      rw [hstep]
      exact ih _ hnd.2 hlk'

theorem phase4_no_defer (facId : Nat) (k : String) :
    ∀ (entries : List (String × Value)) (schema : Fields) (bt : List BTEntry)
      (hm : List HMEntry) (ho : List HOEntry) (s : St)
      (res : Fields × List BTEntry × List HMEntry × List HOEntry) (s' : St),
      (∀ v, (k, v) ∈ entries → isRelDescriptor v = false) →
      k ∉ bt.map Prod.fst → k ∉ hm.map Prod.fst → k ∉ ho.map Prod.fst →
      phase4 facId entries schema bt hm ho s = (Except.ok res, s') →
      k ∉ res.2.1.map Prod.fst ∧ k ∉ res.2.2.1.map Prod.fst ∧
        k ∉ res.2.2.2.map Prod.fst := by
  intro entries
  induction entries with
  | nil =>
    intro schema bt hm ho s res s' hent hbt hhm hho hres
    simp only [phase4, rpure] at hres
    injection hres with h1 h2
    injection h1 with h1
    subst h1
    exact ⟨hbt, hhm, hho⟩
  | cons hd tl ih =>
    intro schema bt hm ho s res s' hent hbt hhm hho hres
    obtain ⟨key, v⟩ := hd
    have hent' : ∀ v', (k, v') ∈ tl → isRelDescriptor v' = false :=
      fun v' hv' => hent v' (List.mem_cons_of_mem _ hv')
    cases v with
    | desc d =>
      cases d with
      | sequence f =>
        simp only [phase4, rbind, nextSequenceM] at hres
        exact ih _ _ _ _ _ _ _ hent' hbt hhm hho hres
      | ref label =>
        simp only [phase4, rbind, getRefM] at hres
        rcases hlk : lookupStr (cellGet s.w.refHeap s.ctx.refCell []) label with _ | rv
        · rw [hlk] at hres
          simp at hres
        · rw [hlk] at hres
          exact ih _ _ _ _ _ _ _ hent' hbt hhm hho hres
      | belongsTo fr ov vs =>
        have hne : k ≠ key := by
          intro he
          subst he
          have := hent (Value.desc (Descriptor.belongsTo fr ov vs)) (List.mem_cons_self _ _)
          simp [isRelDescriptor] at this
        simp only [phase4] at hres
        refine ih _ _ _ _ _ _ _ hent' ?_ hhm hho hres
        simp only [List.map_append, List.map_cons, List.map_nil]
        intro hmem
        rcases List.mem_append.mp hmem with h | h
        · exact hbt h
        · simp at h
          exact hne h
      | hasMany fr c ov vs =>
        have hne : k ≠ key := by
          intro he
          subst he
          have := hent (Value.desc (Descriptor.hasMany fr c ov vs)) (List.mem_cons_self _ _)
          simp [isRelDescriptor] at this
        simp only [phase4] at hres
        refine ih _ _ _ _ _ _ _ hent' hbt ?_ hho hres
        simp only [List.map_append, List.map_cons, List.map_nil]
        intro hmem
        rcases List.mem_append.mp hmem with h | h
        · exact hhm h
        · simp at h
          exact hne h
      | hasOne fr ov vs =>
        have hne : k ≠ key := by
          intro he
          subst he
          have := hent (Value.desc (Descriptor.hasOne fr ov vs)) (List.mem_cons_self _ _)
          simp [isRelDescriptor] at this
        simp only [phase4] at hres
        refine ih _ _ _ _ _ _ _ hent' hbt hhm ?_ hres
        simp only [List.map_append, List.map_cons, List.map_nil]
        intro hmem
        rcases List.mem_append.mp hmem with h | h
        · exact hho h
        · simp at h
          exact hne h
    | null =>
      simp only [phase4] at hres
      exact ih _ _ _ _ _ _ _ hent' hbt hhm hho hres
    | int m =>
      simp only [phase4] at hres
      exact ih _ _ _ _ _ _ _ hent' hbt hhm hho hres
    | str s2 =>
      simp only [phase4] at hres
      exact ih _ _ _ _ _ _ _ hent' hbt hhm hho hres
    | ent id =>
      simp only [phase4] at hres
      exact ih _ _ _ _ _ _ _ hent' hbt hhm hho hres
    | obj fs =>
      simp only [phase4] at hres
      exact ih _ _ _ _ _ _ _ hent' hbt hhm hho hres
    | list vs =>
      simp only [phase4] at hres
      exact ih _ _ _ _ _ _ _ hent' hbt hhm hho hres

theorem mem_lookupField_nodup {l : Fields} {k : String} {v : Value}
    (hnd : (l.map Prod.fst).Nodup) (h : (k, v) ∈ l) : lookupField l k = some v := by
  induction l with
  | nil => simp at h
  | cons hd tl ih =>
    simp only [List.map_cons, List.nodup_cons] at hnd
    rcases List.mem_cons.mp h with rfl | hmem
    · simp [lookupField]
    · have hne : hd.1 ≠ k := by
        intro he
        exact hnd.1 (he ▸ List.mem_map.mpr ⟨(k, v), hmem, rfl⟩)
      simp only [lookupField, hne, if_false]
      exact ih hnd.2 hmem

set_option maxHeartbeats 2000000 in
/-- C1: caller-supplied overrides replace, key by key, whatever the base
definition and variant merge produced.  First conjunct: the merged
mapping maps an overridden key to exactly the override value.  Second
conjunct: a key whose merged value is not a relationship descriptor is
never queued for belongsTo/hasMany/hasOne resolution in phase 4, so no
related entity is created for that field.  Scenario: overriding a
belongsTo field with an existing entity object yields exactly one
constructed entity, the field holding the override object, while the
same build without the override constructs two entities. -/
theorem c1_override_replacement :
    (∀ (base ov : Fields) (k : String) (v : Value),
       (ov.map Prod.fst).Nodup → lookupField ov k = some v →
       lookupField (mergeFields base ov) k = some v) ∧
    (∀ (facId : Nat) (schema : Fields) (s : St)
       (res : Fields × List BTEntry × List HMEntry × List HOEntry) (s' : St)
       (k : String) (v : Value),
       phase4 facId schema schema [] [] [] s = (Except.ok res, s') →
       lookupField schema k = some v → isRelDescriptor v = false →
       (schema.map Prod.fst).Nodup →
       k ∉ res.2.1.map Prod.fst ∧ k ∉ res.2.2.1.map Prod.fst ∧
         k ∉ res.2.2.2.map Prod.fst) ∧
    (buildOne cfgBelongs 2 0 (some [("owner", Value.obj [("id", Value.int 5)])])
        initSt).2.w.createdTrace.length = 1 ∧
    lookupField (entityFields (buildOne cfgBelongs 2 0
        (some [("owner", Value.obj [("id", Value.int 5)])]) initSt).2 0) "owner"
      = some (Value.obj [("id", Value.int 5)]) ∧
    (buildOne cfgBelongs 2 0 none initSt).2.w.createdTrace.length = 2 := by
  refine ⟨fun base ov k v hnd hlk => mergeFields_lookup_mem ov k v base hnd hlk,
    ?_, rfl, rfl, rfl⟩
  intro facId schema s res s' k v hres hlk hrel hnd
  refine phase4_no_defer facId k schema schema [] [] [] s res s' ?_
    (by simp) (by simp) (by simp) hres
  intro v' hv'
  have hv2 : lookupField schema k = some v' := mem_lookupField_nodup hnd hv'
  rw [hlk] at hv2
  rw [← Option.some_inj.mp hv2]
  exact hrel

theorem c1_override_replacement_witness :
    lookupField
      (mergeFields [("owner", Value.desc (Descriptor.belongsTo 1 none none))]
        [("owner", Value.int 7)]) "owner" = some (Value.int 7) ∧
    (buildOne cfgBelongs 2 0 (some [("owner", Value.obj [("id", Value.int 5)])])
        initSt).2.w.createdTrace.length = 1 := by
  have h := c1_override_replacement
  exact ⟨h.1 [("owner", Value.desc (Descriptor.belongsTo 1 none none))]
      [("owner", Value.int 7)] "owner" (Value.int 7) (by simp) rfl,
    h.2.2.1⟩

theorem mergeFields_nil (l : Fields) : mergeFields l [] = l := rfl

theorem mergeFields_singleton (l : Fields) (k : String) (v : Value) :
    mergeFields l [(k, v)] = setField l k v := rfl

theorem setField_append_key (l : Fields) (k : String) (w v : Value)
    (h : k ∉ l.map Prod.fst) : setField (l ++ [(k, w)]) k v = l ++ [(k, v)] := by
  induction l with
  | nil => simp [setField]
  | cons hd tl ih =>
    simp only [List.map_cons, List.mem_cons] at h
    push_neg at h
    have hne : ¬(hd.1 = k) := fun he => h.1 he.symm
    simp [setField, hne, ih h.2]

theorem removeField_append_key (l : Fields) (k : String) (w : Value)
    (h : k ∉ l.map Prod.fst) : removeField (l ++ [(k, w)]) k = l := by
  induction l with
  | nil => simp [removeField]
  | cons hd tl ih =>
    simp only [List.map_cons, List.mem_cons] at h
    push_neg at h
    have hne : ¬(hd.1 = k) := fun he => h.1 he.symm
    simp [removeField, hne, ih h.2]

theorem lookupField_append_key (l : Fields) (k : String) (v : Value)
    (h : k ∉ l.map Prod.fst) : lookupField (l ++ [(k, v)]) k = some v := by
  induction l with
  | nil => simp [lookupField]
  | cons hd tl ih =>
    simp only [List.map_cons, List.mem_cons] at h
    push_neg at h
    have hne : ¬(hd.1 = k) := fun he => h.1 he.symm
    simp [lookupField, hne, ih h.2]

theorem nodup_keys_append_key (l : Fields) (k : String) (v : Value)
    (hnd : (l.map Prod.fst).Nodup) (h : k ∉ l.map Prod.fst) :
    ((l ++ [(k, v)]).map Prod.fst).Nodup := by
  simp only [List.map_append, List.map_cons, List.map_nil]
  rw [List.nodup_append]
  refine ⟨hnd, List.nodup_singleton k, ?_⟩
  intro a ha hb
  simp only [List.mem_singleton] at hb
  subst hb
  exact h ha

theorem phase4_append_plain (facId : Nat) (l1 : List (String × Value))
    (hplain : ∀ kv ∈ l1, isDescriptor kv.2 = false) :
    ∀ (l2 : List (String × Value)) (schema : Fields) (bt : List BTEntry)
      (hm : List HMEntry) (ho : List HOEntry) (s : St),
      phase4 facId (l1 ++ l2) schema bt hm ho s = phase4 facId l2 schema bt hm ho s := by
  induction l1 with
  | nil => intro l2 schema bt hm ho s; rfl
  | cons hd tl ih =>
    intro l2 schema bt hm ho s
    have hhd : isDescriptor hd.2 = false := hplain hd (List.mem_cons_self hd tl)
    have htl : ∀ kv ∈ tl, isDescriptor kv.2 = false :=
      fun kv hkv => hplain kv (List.mem_cons_of_mem hd hkv)
    obtain ⟨key, v⟩ := hd
    cases v with
    | desc d => simp [isDescriptor] at hhd
    | null => simpa only [List.cons_append, phase4] using ih htl l2 schema bt hm ho s
    | int n => simpa only [List.cons_append, phase4] using ih htl l2 schema bt hm ho s
    | str s2 => simpa only [List.cons_append, phase4] using ih htl l2 schema bt hm ho s
    | ent id => simpa only [List.cons_append, phase4] using ih htl l2 schema bt hm ho s
    | obj fs => simpa only [List.cons_append, phase4] using ih htl l2 schema bt hm ho s
    | list vs => simpa only [List.cons_append, phase4] using ih htl l2 schema bt hm ho s

theorem resolve_pair_child (P : PairParams) (rel : Descriptor) (persist : Bool) (p : Nat)
    (s0 : St) (hwf : PairWF P) :
    ∃ s1 : St,
      resolve (pairCfg P rel) 1 ⟨P.bId, []⟩ (some [(P.invField, Value.ent p)]) persist s0
        = (Except.ok s0.w.entHeap.length, s1) ∧
      (∀ j, j < s0.w.entHeap.length →
        cellGet s1.w.entHeap j [] = cellGet s0.w.entHeap j []) ∧
      s1.w.entHeap.length = s0.w.entHeap.length + 1 ∧
      lookupField (cellGet s1.w.entHeap s0.w.entHeap.length []) P.invField
        = some (Value.ent p) ∧
      s1.w.createdTrace = s0.w.createdTrace ++ [(P.mB, s0.w.entHeap.length)] := by
  have hBA : ¬(P.bId = P.aId) := fun h => hwf.idNe h.symm
  have hMBA : ¬(P.mB = P.mA) := fun h => hwf.modelNe h.symm
  have hPkInvNe : P.pkB ≠ P.invField := fun h => hwf.invNePkB h.symm
  have hset := setField_append_key P.baseB P.invField
      (Value.desc (Descriptor.belongsTo P.aId none none)) (Value.ent p) hwf.invNotBaseB
  have hph4 := phase4_append_plain P.bId P.baseB hwf.plainB
  have hpkNotin : P.pkB ∉ (P.baseB ++ [(P.invField, Value.ent p)]).map Prod.fst := by
    simp only [List.map_append, List.map_cons, List.map_nil, List.mem_append,
      List.mem_singleton]
    push_neg
    exact ⟨hwf.pkBNotBaseB, hPkInvNe⟩
  have hlkPk : lookupField (mergeFields [] (P.baseB ++ [(P.invField, Value.ent p)])) P.pkB
      = none := by
    rw [mergeFields_lookup_notin _ _ [] hpkNotin]
    rfl
  have hlkInv : lookupField (mergeFields [] (P.baseB ++ [(P.invField, Value.ent p)]))
      P.invField = some (Value.ent p) :=
    mergeFields_lookup_mem _ _ _ []
      (nodup_keys_append_key _ _ _ hwf.nodupB hwf.invNotBaseB)
      (lookupField_append_key _ _ _ hwf.invNotBaseB)
  cases persist with
  | false =>
    refine ⟨⟨{ s0.ctx with tempIdCounter := s0.ctx.tempIdCounter - 1 },
             { s0.w with
                entHeap := s0.w.entHeap ++
                  [setField (mergeFields [] (P.baseB ++ [(P.invField, Value.ent p)])) P.pkB
                    (Value.int s0.ctx.tempIdCounter)],
                createdTrace := s0.w.createdTrace ++ [(P.mB, s0.w.entHeap.length)],
                tempIdTrace := s0.w.tempIdTrace ++ [s0.ctx.tempIdCounter] }⟩,
      ?_, ?_, ?_, ?_, ?_⟩
    · simp [resolve, pairCfg, mergeVariants, rlift, rbind, rpure, rthrow, hBA, hMBA,
        mergeFields_singleton, hset, hph4, phase4, phase5Loop, allocEntityM, assignSchemaM,
        assignTempIdsLoop, primaryKeyPropertyNames, getEntityFieldM, isNullish, hlkPk,
        nextTempIdM, setEntityFieldM, phase7HMLoop, phase7HOLoop,
        cellGet_append_self, cellSet_append_self]
    · intro j hj
      exact cellGet_append_lt _ _ _ _ hj
    · simp
    · rw [cellGet_append_self, lookupField_setField_ne _ _ _ _ hPkInvNe]
      exact hlkInv
    · rfl
  | true =>
    refine ⟨⟨s0.ctx,
             { s0.w with
                entHeap := s0.w.entHeap ++
                  [setField (mergeFields [] (P.baseB ++ [(P.invField, Value.ent p)])) P.pkB
                    (Value.int (Int.ofNat (s0.w.dbCounter + 1)))],
                createdTrace := s0.w.createdTrace ++ [(P.mB, s0.w.entHeap.length)],
                saveTrace := s0.w.saveTrace ++ [(s0.ctx.em, s0.w.entHeap.length)],
                logHeap := cellSet s0.w.logHeap s0.ctx.logCell
                  (cellGet s0.w.logHeap s0.ctx.logCell [] ++ [(P.mB, s0.w.entHeap.length)]),
                dbCounter := s0.w.dbCounter + 1 }⟩,
      ?_, ?_, ?_, ?_, ?_⟩
    · simp [resolve, pairCfg, mergeVariants, rlift, rbind, rpure, rthrow, hBA, hMBA,
        mergeFields_singleton, hset, hph4, phase4, phase5Loop, allocEntityM, assignSchemaM,
        persistEntityM, snapshotRelations, restoreRelations, emSaveM, logCreationM,
        primaryKeyPropertyNames, getEntityFieldM, isNullish, hlkPk,
        setEntityFieldM, phase7HMLoop, phase7HOLoop,
        cellGet_append_self, cellSet_append_self]
    · intro j hj
      exact cellGet_append_lt _ _ _ _ hj
    · simp
    · rw [cellGet_append_self, lookupField_setField_ne _ _ _ _ hPkInvNe]
      exact hlkInv
    · rfl

theorem resolveChildren_pair (P : PairParams) (rel : Descriptor) (persist : Bool)
    (p : Nat) (hwf : PairWF P) :
    ∀ (count : Nat) (s0 : St),
      ∃ s1 : St,
        resolveChildren (fun f o => resolve (pairCfg P rel) 1 f o persist) ⟨P.bId, []⟩
            [(P.invField, Value.ent p)] count s0
          = (Except.ok ((List.range count).map (fun i => s0.w.entHeap.length + i)), s1) ∧
        (∀ j, j < s0.w.entHeap.length →
          cellGet s1.w.entHeap j [] = cellGet s0.w.entHeap j []) ∧
        s1.w.entHeap.length = s0.w.entHeap.length + count ∧
        (∀ i, i < count →
          lookupField (cellGet s1.w.entHeap (s0.w.entHeap.length + i) []) P.invField
            = some (Value.ent p)) ∧
        s1.w.createdTrace
          = s0.w.createdTrace
              ++ (List.range count).map (fun i => (P.mB, s0.w.entHeap.length + i)) := by
  intro count
  induction count with
  | zero =>
    intro s0
    refine ⟨s0, by simp [resolveChildren, rpure], fun j hj => rfl, by simp, ?_, by simp⟩
    intro i hi
    exact absurd hi (Nat.not_lt_zero i)
  | succ k ih =>
    intro s0
    obtain ⟨sc, hstep, hpresC, hlenC, hinvC, htraceC⟩ :=
      resolve_pair_child P rel persist p s0 hwf
    obtain ⟨s2, heq2, hpres2, hlen2, hpar2, htrace2⟩ := ih sc
    refine ⟨s2, ?_, ?_, ?_, ?_, ?_⟩
    · simp only [resolveChildren, rbind]
      rw [hstep]
      dsimp only
      rw [heq2]
      dsimp only [rpure]
      rw [hlenC, range_succ_map (fun i => s0.w.entHeap.length + i) k]
      have harith : ∀ i : Nat, s0.w.entHeap.length + 1 + i = s0.w.entHeap.length + (i + 1) := by
        intro i; omega
      simp [harith]
    · intro j hj
      rw [hpres2 j (by omega)]
      exact hpresC j hj
    · omega
    · intro i hi
      cases i with
      | zero =>
        rw [Nat.add_zero, hpres2 s0.w.entHeap.length (by omega)]
        exact hinvC
      | succ j =>
        have := hpar2 j (by omega)
        rw [hlenC] at this
        have harith : s0.w.entHeap.length + (j + 1) = s0.w.entHeap.length + 1 + j := by omega
        rw [harith]
        exact this
    · rw [htrace2, htraceC, hlenC]
      rw [range_succ_map (fun i => (P.mB, s0.w.entHeap.length + i)) k]
      have harith : ∀ i : Nat, s0.w.entHeap.length + 1 + i = s0.w.entHeap.length + (i + 1) := by
        intro i; omega
      simp [harith]

set_option maxHeartbeats 4000000 in
theorem pair_parent_hasMany (P : PairParams) (n : Nat) (persist : Bool) (hwf : PairWF P) :
    ∃ s' : St,
      (rbind (getFactoryM P.aId)
          (fun fac => resolve (pairCfg P (Descriptor.hasMany P.bId n none none)) 2
            fac none persist)) initSt
        = (Except.ok 0, s') ∧
      lookupField (entityFields s' 0) P.childField
        = some (Value.list (((List.range n).map (fun i => 1 + i)).map Value.ent)) ∧
      (∀ i, i < n →
        lookupField (entityFields s' (1 + i)) P.invField = some (Value.ent 0)) ∧
      s'.w.createdTrace = (P.mA, 0) :: (List.range n).map (fun i => (P.mB, 1 + i)) ∧
      s'.w.entHeap.length = 1 + n := by
  have hBA : ¬(P.bId = P.aId) := fun h => hwf.idNe h.symm
  have hrem := removeField_append_key P.baseA P.childField
      (Value.desc (Descriptor.hasMany P.bId n none none)) hwf.childNotBaseA
  have hph4A := phase4_append_plain P.aId P.baseA hwf.plainA
  have hlkPkA : lookupField (mergeFields [] P.baseA) P.pkA = none := by
    rw [mergeFields_lookup_notin _ _ [] hwf.pkANotBaseA]
    rfl
  obtain ⟨s1, heq, hpres, hlen, hpar, htrace⟩ :=
    resolveChildren_pair P (Descriptor.hasMany P.bId n none none) persist 0 hwf n
      (pairPreSt P persist)
  have hpl : (pairPreSt P persist).w.entHeap.length = 1 := rfl
  have hzero_lt : 0 < s1.w.entHeap.length := by
    rw [hlen, hpl]
    omega
  refine ⟨{ s1 with w := { s1.w with
      entHeap := cellSet s1.w.entHeap 0
        (setField (cellGet s1.w.entHeap 0 []) P.childField
          (Value.list (((List.range n).map
            (fun i => (pairPreSt P persist).w.entHeap.length + i)).map Value.ent))) } },
    ?_, ?_, ?_, ?_, ?_⟩
  · cases persist with
    | false =>
      simp [rbind, getFactoryM, initSt, createSeedingContext, mkContext, emptyWorld,
        cellGet, cellSet, lookupNat, setNat, resolve, pairCfg, mergeVariants, rlift, rpure,
        rthrow, hBA, hrem, hph4A, hlkPkA, phase4, phase5Loop, allocEntityM, assignSchemaM,
        assignTempIdsLoop, primaryKeyPropertyNames, getEntityFieldM, isNullish, nextTempIdM,
        setEntityFieldM, phase7HMLoop, phase7HOLoop, getInverseRelationName, findRelation,
        lookupStr, inverseInjection, applyVariants, mergeFields_nil, hwf.invNonempty,
        hwf.idNe, pairPreSt]
      split
      · rename_i a s2 hsp
        split at hsp
        · rename_i a2 s3 hsp2
          have hbr := heq.symm.trans hsp2
          injection hbr with h1 h2
          injection h1 with h1
          subst h1
          subst h2
          injection hsp with h3 h4
          injection h3 with h3
          subst h3
          subst h4
          simp [pairPreSt, List.map_map, Function.comp]
        · rename_i e2 s3 hsp2
          have hbr := heq.symm.trans hsp2
          injection hbr with h1 h2
          injection h1
      · rename_i e s2 hsp
        split at hsp
        · rename_i a2 s3 hsp2
          have hbr := heq.symm.trans hsp2
          injection hbr with h1 h2
          injection h1 with h1
          subst h1
          subst h2
          injection hsp with h3 h4
          injection h3
        · rename_i e2 s3 hsp2
          have hbr := heq.symm.trans hsp2
          injection hbr with h1 h2
          injection h1
    | true =>
      simp [rbind, getFactoryM, initSt, createSeedingContext, mkContext, emptyWorld,
        cellGet, cellSet, lookupNat, setNat, resolve, pairCfg, mergeVariants, rlift, rpure,
        rthrow, hBA, hrem, hph4A, hlkPkA, phase4, phase5Loop, allocEntityM, assignSchemaM,
        persistEntityM, snapshotRelations, restoreRelations, emSaveM, logCreationM,
        primaryKeyPropertyNames, getEntityFieldM, isNullish,
        setEntityFieldM, phase7HMLoop, phase7HOLoop, getInverseRelationName, findRelation,
        lookupStr, inverseInjection, applyVariants, mergeFields_nil, hwf.invNonempty,
        hwf.idNe, pairPreSt]
      split
      · rename_i a s2 hsp
        split at hsp
        · rename_i a2 s3 hsp2
          have hbr := heq.symm.trans hsp2
          injection hbr with h1 h2
          injection h1 with h1
          subst h1
          subst h2
          injection hsp with h3 h4
          injection h3 with h3
          subst h3
          subst h4
          simp [pairPreSt, List.map_map, Function.comp]
        · rename_i e2 s3 hsp2
          have hbr := heq.symm.trans hsp2
          injection hbr with h1 h2
          injection h1
      · rename_i e s2 hsp
        split at hsp
        · rename_i a2 s3 hsp2
          have hbr := heq.symm.trans hsp2
          injection hbr with h1 h2
          injection h1 with h1
          subst h1
          subst h2
          injection hsp with h3 h4
          injection h3
        · rename_i e2 s3 hsp2
          have hbr := heq.symm.trans hsp2
          injection hbr with h1 h2
          injection h1
  · simp only [entityFields]
    rw [cellGet_cellSet_self _ _ _ _ hzero_lt, lookupField_setField_self]
    simp [pairPreSt]
  · intro i hi
    simp only [entityFields]
    have hne : (0 : Nat) ≠ 1 + i := by omega
    have hcg : cellGet (cellSet s1.w.entHeap 0
        (setField (cellGet s1.w.entHeap 0 []) P.childField
          (Value.list (((List.range n).map
            (fun i => (pairPreSt P persist).w.entHeap.length + i)).map Value.ent)))) (1 + i) []
        = cellGet s1.w.entHeap (1 + i) [] := by
      simp [cellGet, cellSet, List.getElem?_set_ne hne]
    rw [hcg]
    have hch := hpar i hi
    rw [hpl] at hch
    exact hch
  · have h := htrace
    rw [hpl] at h
    simpa [pairPreSt] using h
  · simp [cellSet_length, hlen, pairPreSt]

set_option maxHeartbeats 4000000 in
theorem pair_parent_hasOne (P : PairParams) (persist : Bool) (hwf : PairWF P) :
    ∃ s' : St,
      (rbind (getFactoryM P.aId)
          (fun fac => resolve (pairCfg P (Descriptor.hasOne P.bId none none)) 2
            fac none persist)) initSt
        = (Except.ok 0, s') ∧
      lookupField (entityFields s' 0) P.childField = some (Value.ent 1) ∧
      lookupField (entityFields s' 1) P.invField = some (Value.ent 0) ∧
      s'.w.createdTrace = [(P.mA, 0), (P.mB, 1)] ∧
      s'.w.entHeap.length = 2 := by
  have hBA : ¬(P.bId = P.aId) := fun h => hwf.idNe h.symm
  have hMBA : ¬(P.mB = P.mA) := fun h => hwf.modelNe h.symm
  have hPkInvNe : P.pkB ≠ P.invField := fun h => hwf.invNePkB h.symm
  have hrem := removeField_append_key P.baseA P.childField
      (Value.desc (Descriptor.hasOne P.bId none none)) hwf.childNotBaseA
  have hph4A := phase4_append_plain P.aId P.baseA hwf.plainA
  have hlkPkA : lookupField (mergeFields [] P.baseA) P.pkA = none := by
    rw [mergeFields_lookup_notin _ _ [] hwf.pkANotBaseA]
    rfl
  have hset := setField_append_key P.baseB P.invField
      (Value.desc (Descriptor.belongsTo P.aId none none)) (Value.ent 0) hwf.invNotBaseB
  have hph4B := phase4_append_plain P.bId P.baseB hwf.plainB
  have hpkNotin : P.pkB ∉ (P.baseB ++ [(P.invField, Value.ent 0)]).map Prod.fst := by
    simp only [List.map_append, List.map_cons, List.map_nil, List.mem_append,
      List.mem_singleton]
    push_neg
    exact ⟨hwf.pkBNotBaseB, hPkInvNe⟩
  have hlkPkB : lookupField (mergeFields [] (P.baseB ++ [(P.invField, Value.ent 0)])) P.pkB
      = none := by
    rw [mergeFields_lookup_notin _ _ [] hpkNotin]
    rfl
  have hlkInvB : lookupField (mergeFields [] (P.baseB ++ [(P.invField, Value.ent 0)]))
      P.invField = some (Value.ent 0) :=
    mergeFields_lookup_mem _ _ _ []
      (nodup_keys_append_key _ _ _ hwf.nodupB hwf.invNotBaseB)
      (lookupField_append_key _ _ _ hwf.invNotBaseB)
  cases persist with
  | false =>
    refine ⟨⟨⟨0, 0, 0, 0, 0, 0, -3, 0⟩,
      { cacheHeap := [[(P.aId, ⟨P.aId, []⟩), (P.bId, ⟨P.bId, []⟩)]],
        seqHeap := [[]], refHeap := [[]], logHeap := [[]], storeHeap := [[]],
        entHeap := [setField (setField (mergeFields [] P.baseA) P.pkA (Value.int (-1)))
            P.childField (Value.ent 1),
          setField (mergeFields [] (P.baseB ++ [(P.invField, Value.ent 0)])) P.pkB
            (Value.int (-2))],
        createdTrace := [(P.mA, 0), (P.mB, 1)],
        saveTrace := [], removeTrace := [],
        tempIdTrace := [-1, -2], dbCounter := 0 }⟩, ?_, ?_, ?_, ?_, ?_⟩
    · simp [rbind, getFactoryM, initSt, createSeedingContext, mkContext, emptyWorld,
        cellGet, cellSet, lookupNat, setNat, resolve, pairCfg, mergeVariants, rlift, rpure,
        rthrow, hwf.idNe, hBA, hMBA, hrem, hph4A, hlkPkA, hset, hph4B, hlkPkB,
        phase4, phase5Loop, allocEntityM, assignSchemaM,
        assignTempIdsLoop, primaryKeyPropertyNames, getEntityFieldM, isNullish, nextTempIdM,
        setEntityFieldM, phase7HMLoop, phase7HOLoop, getInverseRelationName, findRelation,
        lookupStr, inverseInjection, applyVariants, mergeFields_nil, mergeFields_singleton,
        hwf.invNonempty]
    · simp [entityFields, cellGet, lookupField_setField_self]
    · simp only [entityFields, cellGet]
      simp only [List.get?_cons_succ, List.get?_cons_zero, Option.getD_some]
      rw [lookupField_setField_ne _ _ _ _ hPkInvNe]
      exact hlkInvB
    · rfl
    · rfl
  | true =>
    refine ⟨⟨⟨0, 0, 0, 0, 0, 0, -1, 0⟩,
      { cacheHeap := [[(P.aId, ⟨P.aId, []⟩), (P.bId, ⟨P.bId, []⟩)]],
        seqHeap := [[]], refHeap := [[]],
        logHeap := [[(P.mA, 0), (P.mB, 1)]], storeHeap := [[]],
        entHeap := [setField (setField (mergeFields [] P.baseA) P.pkA (Value.int 1))
            P.childField (Value.ent 1),
          setField (mergeFields [] (P.baseB ++ [(P.invField, Value.ent 0)])) P.pkB
            (Value.int 2)],
        createdTrace := [(P.mA, 0), (P.mB, 1)],
        saveTrace := [(0, 0), (0, 1)], removeTrace := [],
        tempIdTrace := [], dbCounter := 2 }⟩, ?_, ?_, ?_, ?_, ?_⟩
    · simp [rbind, getFactoryM, initSt, createSeedingContext, mkContext, emptyWorld,
        cellGet, cellSet, lookupNat, setNat, resolve, pairCfg, mergeVariants, rlift, rpure,
        rthrow, hwf.idNe, hBA, hMBA, hrem, hph4A, hlkPkA, hset, hph4B, hlkPkB,
        phase4, phase5Loop, allocEntityM, assignSchemaM,
        persistEntityM, snapshotRelations, restoreRelations, emSaveM, logCreationM,
        primaryKeyPropertyNames, getEntityFieldM, isNullish,
        setEntityFieldM, phase7HMLoop, phase7HOLoop, getInverseRelationName, findRelation,
        lookupStr, inverseInjection, applyVariants, mergeFields_nil, mergeFields_singleton,
        hwf.invNonempty]
    · simp [entityFields, cellGet, lookupField_setField_self]
    · simp only [entityFields, cellGet]
      simp only [List.get?_cons_succ, List.get?_cons_zero, Option.getD_some]
      rw [lookupField_setField_ne _ _ _ _ hPkInvNe]
      exact hlkInvB
    · rfl
    · rfl

/-- C2: Mutual factory references terminate instead of recursing forever.
For every pair of factories that refer to each other — the parent
declaring `hasMany`/`hasOne` of the child and the child declaring
`belongsTo` the parent over matching TypeORM inverse-side metadata, with
arbitrary distinct models, arbitrary field and primary-key names, and any
further plain defaults on either side — resolving the parent (in build
and in persist mode alike, reached through `buildOne`/`persistOne`, whose
runs coincide with the quantified one by the first conjunct) succeeds:
the hasMany arm creates exactly the requested count of children and the
hasOne arm exactly one, each child's inverse-relation field is set to the
single parent entity (the injected override shadows the child's
belongsTo descriptor, so recursion stops), and the construction trace
shows exactly one parent-model entity — no infinite or duplicated
construction. -/
theorem c2_cycle_termination :
    (∀ (cfg : Config) (fuel facId : Nat) (ov : Option Fields),
       rbind (getFactoryM facId) (fun fac => resolve cfg fuel fac ov false)
           = buildOne cfg fuel facId ov ∧
       rbind (getFactoryM facId) (fun fac => resolve cfg fuel fac ov true)
           = persistOne cfg fuel facId ov) ∧
    (∀ (P : PairParams) (n : Nat) (persist : Bool), PairWF P →
       ∃ (s' : St) (ids : List Nat),
         (rbind (getFactoryM P.aId)
             (fun fac => resolve (pairCfg P (Descriptor.hasMany P.bId n none none)) 2
               fac none persist)) initSt
           = (Except.ok 0, s') ∧
         ids.length = n ∧
         lookupField (entityFields s' 0) P.childField
           = some (Value.list (ids.map Value.ent)) ∧
         (∀ i ∈ ids, lookupField (entityFields s' i) P.invField = some (Value.ent 0)) ∧
         (s'.w.createdTrace.filter (fun e => e.1 == P.mA)).length = 1 ∧
         (s'.w.createdTrace.filter (fun e => e.1 == P.mB)).length = n) ∧
    (∀ (P : PairParams) (persist : Bool), PairWF P →
       ∃ (s' : St) (cid : Nat),
         (rbind (getFactoryM P.aId)
             (fun fac => resolve (pairCfg P (Descriptor.hasOne P.bId none none)) 2
               fac none persist)) initSt
           = (Except.ok 0, s') ∧
         lookupField (entityFields s' 0) P.childField = some (Value.ent cid) ∧
         lookupField (entityFields s' cid) P.invField = some (Value.ent 0) ∧
         (s'.w.createdTrace.filter (fun e => e.1 == P.mA)).length = 1 ∧
         (s'.w.createdTrace.filter (fun e => e.1 == P.mB)).length = 1) := by
  refine ⟨fun cfg fuel facId ov => ⟨rfl, rfl⟩, ?_, ?_⟩
  · intro P n persist hwf
    obtain ⟨s', hrun, hchildF, hinv, htrace, hlen⟩ := pair_parent_hasMany P n persist hwf
    refine ⟨s', (List.range n).map (fun i => 1 + i), hrun, by simp, hchildF, ?_, ?_, ?_⟩
    · intro i hi
      simp only [List.mem_map, List.mem_range] at hi
      obtain ⟨j, hj, rfl⟩ := hi
      exact hinv j hj
    · rw [htrace]
      have hMBA : ((P.mB == P.mA) : Bool) = false := by
        simp only [beq_eq_false_iff_ne, ne_eq]
        exact fun h => hwf.modelNe h.symm
      have htail : ((List.range n).map (fun i => (P.mB, 1 + i))).filter
          (fun e => e.1 == P.mA) = [] := by
        rw [List.filter_eq_nil_iff]
        intro a ha
        simp only [List.mem_map, List.mem_range] at ha
        obtain ⟨j, hj, rfl⟩ := ha
        simp [hMBA]
      simp [List.filter_cons, htail]
    · rw [htrace]
      have hMAB : ((P.mA == P.mB) : Bool) = false := by
        simp only [beq_eq_false_iff_ne, ne_eq]
        exact hwf.modelNe
      have htail : ((List.range n).map (fun i => (P.mB, 1 + i))).filter
          (fun e => e.1 == P.mB) = (List.range n).map (fun i => (P.mB, 1 + i)) := by
        rw [List.filter_eq_self]
        intro a ha
        simp only [List.mem_map, List.mem_range] at ha
        obtain ⟨j, hj, rfl⟩ := ha
        simp
      simp [List.filter_cons, hMAB, htail]
  · intro P persist hwf
    obtain ⟨s', hrun, hchildF, hinv, htrace, hlen⟩ := pair_parent_hasOne P persist hwf
    refine ⟨s', 1, hrun, hchildF, hinv, ?_, ?_⟩
    · rw [htrace]
      have hMBA : ((P.mB == P.mA) : Bool) = false := by
        simp only [beq_eq_false_iff_ne, ne_eq]
        exact fun h => hwf.modelNe h.symm
      simp [List.filter_cons, hMBA]
    · rw [htrace]
      have hMAB : ((P.mA == P.mB) : Bool) = false := by
        simp only [beq_eq_false_iff_ne, ne_eq]
        exact hwf.modelNe
      simp [List.filter_cons, hMAB]

theorem c2_cycle_termination_witness :
    (∃ (s' : St) (ids : List Nat),
        (rbind (getFactoryM pairP0.aId)
            (fun fac => resolve (pairCfg pairP0 (Descriptor.hasMany pairP0.bId 3 none none)) 2
              fac none false)) initSt
          = (Except.ok 0, s') ∧
        ids.length = 3 ∧
        lookupField (entityFields s' 0) pairP0.childField
          = some (Value.list (ids.map Value.ent)) ∧
        (∀ i ∈ ids, lookupField (entityFields s' i) pairP0.invField = some (Value.ent 0)) ∧
        (s'.w.createdTrace.filter (fun e => e.1 == pairP0.mA)).length = 1 ∧
        (s'.w.createdTrace.filter (fun e => e.1 == pairP0.mB)).length = 3) ∧
    (∃ (s' : St) (cid : Nat),
        (rbind (getFactoryM pairP0.aId)
            (fun fac => resolve (pairCfg pairP0 (Descriptor.hasOne pairP0.bId none none)) 2
              fac none true)) initSt
          = (Except.ok 0, s') ∧
        lookupField (entityFields s' 0) pairP0.childField = some (Value.ent cid) ∧
        lookupField (entityFields s' cid) pairP0.invField = some (Value.ent 0) ∧
        (s'.w.createdTrace.filter (fun e => e.1 == pairP0.mA)).length = 1 ∧
        (s'.w.createdTrace.filter (fun e => e.1 == pairP0.mB)).length = 1) :=
  have hwf : PairWF pairP0 :=
    ⟨by decide, by decide, by decide, by decide, by simp [pairP0], by simp [pairP0],
     by simp [pairP0], by simp [pairP0], by simp [pairP0], by simp [pairP0],
     by simp [pairP0]⟩
  ⟨c2_cycle_termination.2.1 pairP0 3 false hwf,
   c2_cycle_termination.2.2 pairP0 true hwf⟩
